import Mathlib

/-!
# deepmessenger: buffer crypto and the friend-request handshake

A shallow embedding of `src/buffer_crypto.c` and `src/prot_friend_req.c`.

* A libevent `evbuffer` is the list of its chains, each chain the list of the
  bytes it holds (`Evbuffer`).  The libevent calls used by the sources are
  embedded after their documented behaviour.
* The OpenSSL calls are fields of a primitive record (`Ed25519Prim`,
  `RsaPrim`); what the sources assume of them is stated as laws
  (`DigestLaws`, `KeyPair`, `SealLaws`).
* `size_t` is 64 bits wide; subtraction on it wraps (`size_sub`).
* A local variable that the source reads without having initialised it is an
  explicit argument of the embedded function (`sig_uninit`, `is_err_uninit`).
-/

set_option autoImplicit false
set_option maxRecDepth 100000

namespace DeepMessenger

/-! ## Bytes and machine integers -/

/-- One octet (`uint8_t`). -/
abbrev Byte := Fin 256

/-- The modulus of `size_t` arithmetic, 2^64. -/
def SIZE_MOD : Nat := 18446744073709551616

/-- Subtraction of two `size_t` values: wraps modulo 2^64. -/
def size_sub (a b : Nat) : Nat :=
  (a % SIZE_MOD + (SIZE_MOD - b % SIZE_MOD)) % SIZE_MOD

/-- Conversion of a `size_t` to `ev_ssize_t` (wraps to the negatives from 2^63 on). -/
def ssize_of_size (a : Nat) : Int :=
  if a % SIZE_MOD < 9223372036854775808 then ((a % SIZE_MOD : Nat) : Int)
  else ((a % SIZE_MOD : Nat) : Int) - (SIZE_MOD : Int)

/-- The bound 2^63 of `ev_ssize_t`: one more than `EV_SSIZE_MAX`. -/
def EV_SSIZE_LIMIT : Nat := 9223372036854775808

/-- The `min` of `helpers.h`, used on `size_t` operands. -/
def c_min (a b : Nat) : Nat := if a < b then a else b

/-- Storing `src` at the start of the array `dst`: the bytes after it stay. -/
def mem_write (dst src : List Byte) : List Byte :=
  src ++ dst.drop src.length

/-! ## Constants of `include/constants.h` -/

def ED25519_PUB_KEY_LEN : Nat := 32
def ED25519_PRIV_KEY_LEN : Nat := 32
def ED25519_SIGNATURE_LEN : Nat := 64
def MAILBOX_ID_LEN : Nat := 16
def TRANSACTION_ID_LEN : Nat := 16
def CLIENT_NICK_MAX_LEN : Nat := 255
def CLIENT_SIG_KEY_PUB_LEN : Nat := 32
def CLIENT_SIG_KEY_PRIV_LEN : Nat := 64
def CLIENT_ENC_KEY_PUB_LEN : Nat := 526
def CLIENT_ENC_KEY_PRIV_LEN : Nat := 2348

/-! ## libevent evbuffers -/

/-- An evbuffer: its chains in order, each with the bytes it holds. -/
abbrev Evbuffer := List (List Byte)

/-- The call `evbuffer_get_length`: total number of bytes stored. -/
def evbuffer_get_length (buf : Evbuffer) : Nat := buf.flatten.length

/-- The call `evbuffer_add`: appends `data`.  libevent may put the bytes in the
free tail of the last chain or in a new chain; the embedding records a new
chain, and what is proved of a reader of the buffer is proved for every
layout with the same content. -/
def evbuffer_add (buf : Evbuffer) (data : List Byte) : Evbuffer := buf ++ [data]

/-- The chain walk of `evbuffer_peek`: chains are taken while the length seen
so far is below `len`. -/
def peek_chains : List (List Byte) → Nat → Nat → List (List Byte)
  | [], _, _ => []
  | c :: cs, len_so_far, len =>
    if len ≤ len_so_far then [] else c :: peek_chains cs (len_so_far + c.length) len

/-- The call `evbuffer_peek(buf, len, NULL, vec, n)` in the two-call idiom of the
sources (first with `n = 0` for the count, then with that count): the extents
returned.  A negative `len` asks for everything. -/
def evbuffer_peek (buf : Evbuffer) (len : Int) : List (List Byte) :=
  peek_chains buf 0 (if len < 0 then evbuffer_get_length buf else len.toNat)

/-- A position in an evbuffer (`struct evbuffer_ptr`): the offset, or -1 when
not found, the index of the chain (`none` for NULL) and the offset in it. -/
structure evbuffer_ptr where
  pos : Int
  chain : Option Nat
  pos_in_chain : Nat
deriving DecidableEq, Repr

/-- The chain walk of `evbuffer_ptr_set`: skips the chains that end at or
before the position; returns the chain reached and the offset left. -/
def ptr_walk : List (List Byte) → Nat → Nat → Option Nat × Nat
  | [], _, left => (none, left)
  | c :: cs, idx, left =>
    if c.length ≤ left then ptr_walk cs (idx + 1) (left - c.length) else (some idx, left)

/-- The call `evbuffer_ptr_set(buf, &pos, position, EVBUFFER_PTR_SET)`; the
sources ignore its status.  A position past the end gives the not-found
pointer. -/
def evbuffer_ptr_set (buf : Evbuffer) (position : Nat) : evbuffer_ptr :=
  match ptr_walk buf 0 position with
  | (some i, left) => ⟨ssize_of_size position, some i, left⟩
  | (none, 0) => ⟨ssize_of_size position, none, 0⟩
  | (none, _ + 1) => ⟨-1, none, 0⟩

/-- The call `evbuffer_copyout(buf, out, datlen)`: the bytes copied. -/
def evbuffer_copyout (buf : Evbuffer) (datlen : Nat) : List Byte :=
  buf.flatten.take datlen

/-- The call `evbuffer_copyout_from(buf, &pos, out, datlen)`: the bytes copied,
at most what the buffer holds from the position on.  With the not-found
pointer the embedding copies nothing (libevent then follows a NULL chain). -/
def evbuffer_copyout_from (buf : Evbuffer) (pos : evbuffer_ptr) (datlen : Nat) : List Byte :=
  if pos.pos < 0 then [] else (buf.flatten.drop pos.pos.toNat).take datlen

/-- The call `evbuffer_peek(buf, len, &pos, vec, n)` in the two-call idiom: the
first extent is the rest of the chain of `pos`, whatever `len`; further
chains are taken while the length seen so far is below `len`. -/
def evbuffer_peek_from (buf : Evbuffer) (len : Int) (start_at : evbuffer_ptr) :
    List (List Byte) :=
  match start_at.chain with
  | none => []
  | some i =>
    match buf.drop i with
    | [] => []
    | c :: cs =>
      (c.drop start_at.pos_in_chain) ::
        peek_chains cs (c.length - start_at.pos_in_chain)
          (if len < 0 then (evbuffer_get_length buf - start_at.pos.toNat) else len.toNat)

/-- The call `evbuffer_drain(buf, len)`: removes the first `len` bytes. -/
def evbuffer_drain : Evbuffer → Nat → Evbuffer
  | [], _ => []
  | c :: cs, n => if c.length ≤ n then evbuffer_drain cs (n - c.length) else (c.drop n) :: cs

/-- The call `evbuffer_remove(buf, out, datlen)`: copies out and drains. -/
def evbuffer_remove (buf : Evbuffer) (datlen : Nat) : List Byte × Evbuffer :=
  (evbuffer_copyout buf datlen, evbuffer_drain buf datlen)

/-- The call `evbuffer_pullup(buf, size)`: makes the first `size` bytes
contiguous; the content does not change. -/
def evbuffer_pullup (buf : Evbuffer) (size : Nat) : Evbuffer :=
  match buf with
  | [] => []
  | c :: cs =>
    if size ≤ c.length then c :: cs
    else if evbuffer_get_length (c :: cs) < size then c :: cs
    else (c :: cs).flatten.take size :: evbuffer_drain (c :: cs) size

/-! ## OpenSSL primitives used for signing -/

/-- The OpenSSL calls of `ed25519_buffer_sign` and `ed25519_buffer_validate`.
`H` is a digest context, `K` a key handle. -/
structure Ed25519Prim (H K : Type) where
  /-- `EVP_MD_CTX_new` and `EVP_DigestInit_ex2` with SHA-512. -/
  DigestInit : Option H
  /-- `EVP_DigestUpdate`. -/
  DigestUpdate : H → List Byte → Option H
  /-- `EVP_DigestFinal_ex`: the hash. -/
  DigestFinal : H → Option (List Byte)
  /-- `EVP_PKEY_new_raw_private_key` on `ED25519_PRIV_KEY_LEN` bytes. -/
  new_raw_private_key : List Byte → Option K
  /-- `EVP_PKEY_new_raw_public_key` on `ED25519_PUB_KEY_LEN` bytes. -/
  new_raw_public_key : List Byte → Option K
  /-- `EVP_MD_CTX_new` and `EVP_DigestSignInit`. -/
  DigestSignInit : K → Bool
  /-- `EVP_DigestSign`: the content of `sig[0..sig_len)` after the call (the
  source does not look at the status). -/
  DigestSign : K → List Byte → List Byte
  /-- `EVP_MD_CTX_new` and `EVP_DigestVerifyInit`. -/
  DigestVerifyInit : K → Bool
  /-- `EVP_DigestVerify` on key, signature, hash: 1 when the signature verifies,
  0 when it does not, negative on other failures. -/
  DigestVerify : K → List Byte → List Byte → Int

/-! ## `buffer_crypto.c`: signatures -/

/-- The chunk loop shared by `ed25519_buffer_sign` (lines 54-59) and
`ed25519_buffer_validate` (lines 121-126): each extent feeds
`min(iov_len, len)` bytes to the digest, then `len -= iov_len`. -/
def digest_loop {H K : Type} (P : Ed25519Prim H K) : H → List (List Byte) → Nat → Option H
  | hashctx, [], _ => some hashctx
  | hashctx, c :: cs, len =>
    match P.DigestUpdate hashctx (c.take (c_min c.length len)) with
    | none => none
    | some hashctx1 => digest_loop P hashctx1 cs (size_sub len c.length)

/-- The byte slices that the chunk loop passes to `EVP_DigestUpdate`, in order. -/
def digest_loop_fed : List (List Byte) → Nat → List (List Byte)
  | [], _ => []
  | c :: cs, len => c.take (c_min c.length len) :: digest_loop_fed cs (size_sub len c.length)

/-- The region length used by `ed25519_buffer_sign`: `len`, or the buffer length
when `len` is 0 (lines 31-32). -/
def sign_len (buff : Evbuffer) (len : Nat) : Nat :=
  if len = 0 then evbuffer_get_length buff else len

/-- All bytes fed to the digest by `ed25519_buffer_sign(buff, len, _)`. -/
def ed25519_sign_fed (buff : Evbuffer) (len : Nat) : List Byte :=
  (digest_loop_fed (evbuffer_peek buff (ssize_of_size (sign_len buff len)))
    (sign_len buff len)).flatten

/-- The function `ed25519_buffer_sign`: status (0 on success, 1 on error) and the buffer
afterwards. -/
def ed25519_buffer_sign {H K : Type} (P : Ed25519Prim H K) (buff : Evbuffer) (len : Nat)
    (priv_key : List Byte) : Int × Evbuffer :=
  let len := sign_len buff len
  match P.DigestInit with
  | none => (1, buff)
  | some hashctx =>
    match P.new_raw_private_key (priv_key.take ED25519_PRIV_KEY_LEN) with
    | none => (1, buff)
    | some pkey =>
      if P.DigestSignInit pkey = false then (1, buff)
      else
        let iv := evbuffer_peek buff (ssize_of_size len)
        match digest_loop P hashctx iv len with
        | none => (1, buff)
        | some hashctx1 =>
          match P.DigestFinal hashctx1 with
          | none => (1, buff)
          | some hash => (0, evbuffer_add buff (P.DigestSign pkey hash))

/-- The value of `content_len` in `ed25519_buffer_validate`: computed from the
argument `len` at its declaration (line 90), before line 101 replaces a zero
`len` by the buffer length; `len` is not read after that. -/
def validate_content_len (len : Nat) : Nat := size_sub len ED25519_SIGNATURE_LEN

/-- The 64 bytes that `ed25519_buffer_validate` passes as the signature: the
array `sig` after `evbuffer_copyout_from` at `content_len` (lines 113-114). -/
def validate_sig (buff : Evbuffer) (len : Nat) (sig_uninit : List Byte) : List Byte :=
  (mem_write sig_uninit
    (evbuffer_copyout_from buff (evbuffer_ptr_set buff (validate_content_len len))
      ED25519_SIGNATURE_LEN)).take ED25519_SIGNATURE_LEN

/-- All bytes fed to the digest by `ed25519_buffer_validate(buff, len, _)`. -/
def ed25519_validate_fed (buff : Evbuffer) (len : Nat) : List Byte :=
  (digest_loop_fed (evbuffer_peek buff (ssize_of_size (validate_content_len len)))
    (validate_content_len len)).flatten

/-- The function `ed25519_buffer_validate`: the value of `EVP_DigestVerify`, or 0 on error.
`sig_uninit` is the content of the local array `sig` at entry. -/
def ed25519_buffer_validate {H K : Type} (P : Ed25519Prim H K) (buff : Evbuffer) (len : Nat)
    (pub_key : List Byte) (sig_uninit : List Byte) : Int :=
  let content_len := validate_content_len len
  -- lines 101-102 replace a zero `len` by the buffer length; `len` is not read again
  match P.new_raw_public_key (pub_key.take ED25519_PUB_KEY_LEN) with
  | none => 0
  | some pkey =>
    match P.DigestInit with
    | none => 0
    | some hashctx =>
      let sig := validate_sig buff len sig_uninit
      let iv := evbuffer_peek buff (ssize_of_size content_len)
      match digest_loop P hashctx iv content_len with
      | none => 0
      | some hashctx1 =>
        match P.DigestFinal hashctx1 with
        | none => 0
        | some hash =>
          if P.DigestVerifyInit pkey = false then 0
          else P.DigestVerify pkey sig hash

/-! ## OpenSSL primitives used for hybrid encryption -/

/-- The value of `EVP_CIPHER_block_size(EVP_aes_256_cbc())`. -/
def AES_BLOCK_SIZE : Nat := 16

/-- The value of `EVP_CIPHER_get_iv_length(EVP_aes_256_cbc())`. -/
def AES_IV_LEN : Nat := 16

/-- The OpenSSL calls of `rsa_buffer_encrypt` and `rsa_buffer_decrypt`, with the
DER decoders of `helpers_crypto.h`.  `K` is a key handle, `C` a cipher
context. -/
structure RsaPrim (K C : Type) where
  /-- `rsa_2048bit_pub_key_decode`. -/
  pub_key_decode : List Byte → Option K
  /-- `rsa_2048bit_priv_key_decode`. -/
  priv_key_decode : List Byte → Option K
  /-- `EVP_PKEY_get_size`. -/
  pkey_size : K → Nat
  /-- `EVP_CIPHER_CTX_new` and `EVP_SealInit`: the context, the wrapped symmetric
  key `ek[0..ek_len)` and the content of the array `iv`. -/
  SealInit : K → Option (C × List Byte × List Byte)
  /-- `EVP_SealUpdate`: the new context and the bytes written. -/
  SealUpdate : C → List Byte → Option (C × List Byte)
  /-- `EVP_SealFinal`: the bytes written. -/
  SealFinal : C → Option (List Byte)
  /-- `EVP_CIPHER_CTX_new` and `EVP_OpenInit` on key handle, wrapped key, IV. -/
  OpenInit : K → List Byte → List Byte → Option C
  /-- `EVP_OpenUpdate`: the new context and the bytes written. -/
  OpenUpdate : C → List Byte → Option (C × List Byte)
  /-- `EVP_OpenFinal`: the status and the content of the output region
  `[0..len_int)` after the call, which the source commits whatever the
  status. -/
  OpenFinal : C → Bool × List Byte
  /-- Number of input bytes a cipher context holds back (its partial block). -/
  buf_len : C → Nat

/-! ## `buffer_crypto.c`: hybrid encryption -/

/-- The four bytes of `htonl(v)` in memory order: big-endian. -/
def be32 (v : Nat) : List Byte :=
  [Fin.ofNat (v / 16777216 % 256), Fin.ofNat (v / 65536 % 256),
   Fin.ofNat (v / 256 % 256), Fin.ofNat (v % 256)]

/-- The value `ntohl` gives for the bytes copied into a `uint32_t`. -/
def ntohl_bytes (bs : List Byte) : Nat :=
  (bs.take 4).foldl (fun acc b => acc * 256 + b.val) 0

/-- The `!` of C on an `int`. -/
def c_not (v : Int) : Int := if v = 0 then 1 else 0

/-- The pair `evbuffer_reserve_space`, `evbuffer_commit_space` with `out` written in
between: `out` is appended. -/
def evbuffer_commit_space (buf : Evbuffer) (out : List Byte) : Evbuffer := buf ++ [out]

/-- The value stored in `encrypted_len` at line 183 (a `uint32_t`). -/
def encrypted_len_of (plain : Evbuffer) : Nat :=
  ((evbuffer_get_length plain / AES_BLOCK_SIZE + 1) * AES_BLOCK_SIZE) % 4294967296

/-- The chunk loop of `rsa_buffer_encrypt` (lines 205-217): the context, `none`
after a failed `EVP_SealUpdate`, and the buffer `enc`. -/
def seal_loop {K C : Type} (P : RsaPrim K C) : C → List (List Byte) → Evbuffer →
    Option C × Evbuffer
  | cipctx, [], enc => (some cipctx, enc)
  | cipctx, c :: cs, enc =>
    match P.SealUpdate cipctx c with
    | none => (none, enc)
    | some (cipctx1, out) => seal_loop P cipctx1 cs (evbuffer_commit_space enc out)

/-- The function `rsa_buffer_encrypt`: status (1 on success, 0 on failure) and the buffer
`enc` afterwards. -/
def rsa_buffer_encrypt {K C : Type} (P : RsaPrim K C) (plain : Evbuffer)
    (der_pub_key : List Byte) (enc : Evbuffer) : Int × Evbuffer :=
  match P.pub_key_decode der_pub_key with
  | none => (c_not 1, enc)
  | some pkey =>
    let enc1 := evbuffer_add enc (be32 (encrypted_len_of plain))
    match P.SealInit pkey with
    | none => (c_not 1, enc1)
    | some (cipctx, ek, iv) =>
      let vec_plain := evbuffer_peek plain (ssize_of_size (evbuffer_get_length plain))
      match seal_loop P cipctx vec_plain enc1 with
      | (none, enc2) => (c_not 1, enc2)
      | (some cipctx1, enc2) =>
        match P.SealFinal cipctx1 with
        | none => (c_not 1, enc2)
        | some out =>
          let enc3 := evbuffer_commit_space enc2 out
          let enc4 := evbuffer_add enc3 ek
          (c_not 0, evbuffer_add enc4 (iv.take AES_IV_LEN))

/-- What `rsa_buffer_decrypt` leaves: its return value, the buffer `plain_buff`,
and the reads it made of `enc_buff`, each as offset and byte count. -/
structure DecryptResult where
  ret : Int
  plain : Evbuffer
  reads : List (Nat × Nat)
deriving DecidableEq, Repr

/-- The number of bytes of an extent that the loop of `rsa_buffer_decrypt` passes
on (line 319): `encrypted_len` is the declared length at every round. -/
def open_chunk_len (iov_len encrypted_len : Nat) : Nat :=
  if iov_len < encrypted_len then iov_len else encrypted_len

/-- The chunk loop of `rsa_buffer_decrypt` (lines 317-330), from the extent at
offset `off`: the context, `none` after a failed `EVP_OpenUpdate`, the buffer
`plain_buff` and the reads made. -/
def open_loop {K C : Type} (P : RsaPrim K C) (encrypted_len : Nat) :
    C → List (List Byte) → Nat → Evbuffer → Option C × Evbuffer × List (Nat × Nat)
  | cipctx, [], _, plain => (some cipctx, plain, [])
  | cipctx, c :: cs, off, plain =>
    let len := open_chunk_len c.length encrypted_len
    match P.OpenUpdate cipctx (c.take len) with
    | none => (none, plain, [(off, len)])
    | some (cipctx1, out) =>
      let r := open_loop P encrypted_len cipctx1 cs (off + c.length)
        (evbuffer_commit_space plain out)
      (r.1, r.2.1, (off, len) :: r.2.2)

/-- The byte slices that the chunk loop of `rsa_buffer_decrypt` passes to
`EVP_OpenUpdate`, in order. -/
def open_loop_fed (encrypted_len : Nat) : List (List Byte) → List (List Byte)
  | [] => []
  | c :: cs => c.take (open_chunk_len c.length encrypted_len) :: open_loop_fed encrypted_len cs

/-- The extents that `rsa_buffer_decrypt` walks (lines 302-305), for a buffer that
passed both length checks. -/
def decrypt_extents (enc_buff : Evbuffer) : List (List Byte) :=
  evbuffer_peek_from enc_buff (ssize_of_size (ntohl_bytes (evbuffer_copyout enc_buff 4)))
    (evbuffer_ptr_set enc_buff 4)

/-- The function `rsa_buffer_decrypt`.  `is_err_uninit` is the value of the local `is_err`
at entry: the source declares it without a value and assigns it only on
the failure paths.  The sum of line 291 is below 2^64 for a 32-bit length
and two `int` sizes, so it is taken in the naturals. -/
def rsa_buffer_decrypt {K C : Type} (P : RsaPrim K C) (is_err_uninit : Int)
    (enc_buff : Evbuffer) (der_priv_key : List Byte) (plain_buff : Evbuffer) : DecryptResult :=
  match P.priv_key_decode der_priv_key with
  | none => ⟨c_not 1, plain_buff, []⟩
  | some pkey_priv =>
    let ekl := P.pkey_size pkey_priv
    let ivl := AES_IV_LEN
    if evbuffer_get_length enc_buff < 4 then ⟨c_not 1, plain_buff, []⟩
    else
      let encrypted_len := ntohl_bytes (evbuffer_copyout enc_buff 4)
      if evbuffer_get_length enc_buff < 4 + encrypted_len + ekl + ivl then
        ⟨c_not 1, plain_buff, [(0, 4)]⟩
      else
        let ek := evbuffer_copyout_from enc_buff
          (evbuffer_ptr_set enc_buff (4 + encrypted_len)) ekl
        let iv := evbuffer_copyout_from enc_buff
          (evbuffer_ptr_set enc_buff (4 + encrypted_len + ekl)) ivl
        let reads := [(0, 4), (4 + encrypted_len, ekl), (4 + encrypted_len + ekl, ivl)]
        let vec_enc := decrypt_extents enc_buff
        match P.OpenInit pkey_priv ek iv with
        | none => ⟨c_not 1, plain_buff, reads⟩
        | some cipctx =>
          match open_loop P encrypted_len cipctx vec_enc 4 plain_buff with
          | (none, plain1, rs) => ⟨c_not 1, plain1, reads ++ rs⟩
          | (some cipctx1, plain1, rs) =>
            ⟨c_not is_err_uninit, evbuffer_commit_space plain1 (P.OpenFinal cipctx1).2,
              reads ++ rs⟩

/-! ## What the sources assume of the primitives -/

/-- Feeding byte slices to a digest context one after the other. -/
def digest_feed {H K : Type} (P : Ed25519Prim H K) : H → List (List Byte) → Option H
  | hashctx, [] => some hashctx
  | hashctx, s :: ss =>
    match P.DigestUpdate hashctx s with
    | none => none
    | some hashctx1 => digest_feed P hashctx1 ss

/-- The digest is a streaming digest: feeding nothing changes nothing, and
feeding two slices in turn is feeding their concatenation. -/
structure DigestLaws {H K : Type} (P : Ed25519Prim H K) : Prop where
  update_nil : ∀ h, P.DigestUpdate h [] = some h
  update_append : ∀ h a b,
    P.DigestUpdate h (a ++ b) = (P.DigestUpdate h a).bind (fun h1 => P.DigestUpdate h1 b)

/-- Signatures of the scheme are 64 bytes long. -/
def SignatureLen {H K : Type} (P : Ed25519Prim H K) : Prop :=
  ∀ k h, (P.DigestSign k h).length = ED25519_SIGNATURE_LEN

/-- The keys `priv_key` and `pub_key` are a matching pair of a correct signature
primitive: both load, verification initialises, and every signature made with
the private key verifies under the public key. -/
def KeyPair {H K : Type} (P : Ed25519Prim H K) (priv_key pub_key : List Byte) : Prop :=
  ∃ ks kv, P.new_raw_private_key (priv_key.take ED25519_PRIV_KEY_LEN) = some ks ∧
    P.new_raw_public_key (pub_key.take ED25519_PUB_KEY_LEN) = some kv ∧
    P.DigestVerifyInit kv = true ∧
    ∀ h, P.DigestVerify kv (P.DigestSign ks h) h = 1

/-- The cipher is a block cipher with 16-byte blocks and padding: a fresh
context holds nothing back and the IV has 16 bytes; an update writes the full
blocks of what is held back plus the input and holds back the rest; the final
step of a context holding less than a block writes one block. -/
structure SealLaws {K C : Type} (P : RsaPrim K C) : Prop where
  init_buf : ∀ k c ek iv, P.SealInit k = some (c, ek, iv) →
    P.buf_len c = 0 ∧ iv.length = AES_IV_LEN
  update_len : ∀ c inp c1 out, P.SealUpdate c inp = some (c1, out) →
    out.length = (P.buf_len c + inp.length) / AES_BLOCK_SIZE * AES_BLOCK_SIZE ∧
    P.buf_len c1 = (P.buf_len c + inp.length) % AES_BLOCK_SIZE
  final_len : ∀ c out, P.buf_len c < AES_BLOCK_SIZE → P.SealFinal c = some out →
    out.length = AES_BLOCK_SIZE

/-! ## Storage and protocol engine, as far as the handshake uses them -/

/-- Modelled from the spec: the contact record of `db_contact.h`, which is not
among the sources; the fields are those the handshake reads and writes
(section 3, Contact Record and Friend-Request Message).  Array fields are
lists of bytes. -/
structure db_contact where
  onion_address : List Byte
  onion_pub_key : List Byte
  has_mailbox : Bool
  mailbox_onion : List Byte
  mailbox_id : List Byte
  nickname : List Byte
  nickname_len : Nat
  local_sig_key_pub : List Byte
  local_sig_key_priv : List Byte
  local_enc_key_pub : List Byte
  local_enc_key_priv : List Byte
  remote_sig_key_pub : List Byte
  remote_enc_key_pub : List Byte
deriving DecidableEq, Repr

/-- Modelled from the spec: the key-value storage for local configuration
(section 6: own onion address, own onion private key, own nickname, mailbox
id and address), read by `db_options_get_text` and `db_options_get_bin`. -/
structure db_options where
  onion_address : List Byte
  onion_private_key : List Byte
  mailbox_id : List Byte
  mailbox_onion_address : List Byte
  nickname : List Byte
deriving DecidableEq, Repr

/-- Modelled from the spec: the storage handle (`sqlite3 *db`): the local
options and the persisted contact records. -/
structure sqlite3 where
  options : db_options
  contacts : List db_contact
deriving DecidableEq, Repr

/-- Modelled from the spec: `db_contact_get_by_onion`, the storage lookup by onion
address (section 3: a contact record is identified by its onion address). -/
def db_contact_get_by_onion (db : sqlite3) (onion_address : List Byte) : Option db_contact :=
  db.contacts.find? (fun c => decide (c.onion_address = onion_address))

/-- Modelled from the spec: `db_contact_new`, a fresh contact record; all fields
are zero, the arrays with `n` the width of an onion address. -/
def db_contact_new (n : Nat) : db_contact where
  onion_address := List.replicate n 0
  onion_pub_key := List.replicate 32 0
  has_mailbox := false
  mailbox_onion := List.replicate n 0
  mailbox_id := List.replicate MAILBOX_ID_LEN 0
  nickname := List.replicate (CLIENT_NICK_MAX_LEN + 1) 0
  nickname_len := 0
  local_sig_key_pub := List.replicate CLIENT_SIG_KEY_PUB_LEN 0
  local_sig_key_priv := List.replicate CLIENT_SIG_KEY_PRIV_LEN 0
  local_enc_key_pub := List.replicate CLIENT_ENC_KEY_PUB_LEN 0
  local_enc_key_priv := List.replicate CLIENT_ENC_KEY_PRIV_LEN 0
  remote_sig_key_pub := List.replicate CLIENT_SIG_KEY_PUB_LEN 0
  remote_enc_key_pub := List.replicate CLIENT_ENC_KEY_PUB_LEN 0

/-- Modelled from the spec: `db_contact_save`, the persist operation: the record
replaces the stored record with the same onion address, or is added. -/
def db_contact_save (db : sqlite3) (c : db_contact) : sqlite3 :=
  { db with contacts :=
      c :: db.contacts.filter (fun d => decide (d.onion_address ≠ c.onion_address)) }

/-- The error kinds given to `prot_main_set_error`; the handshake uses one. -/
inductive prot_error where
  | PROT_ERR_INVALID_MSG
deriving DecidableEq, Repr

/-- The completion callbacks that `prot_friend_req.c` gives to an ACK. -/
inductive ack_callback where
  | ack_received_cb
  | ack_sent_cb
deriving DecidableEq, Repr

/-- The ACK message built by `prot_ack_ed25519_new(PROT_ACK_ONION, pub, priv, cb,
msg)`: the peer key and the local key (`none` for NULL) and the callback; its
argument is the friend-request message. -/
structure prot_ack_ed25519 where
  pub_key : Option (List Byte)
  priv_key : Option (List Byte)
  cb : ack_callback
deriving DecidableEq, Repr

/-- Modelled from the spec: the connection state `struct prot_main` (section 3),
as far as the handshake touches it: transaction id, input buffer of the
connection, fault state, the handlers pushed, and the flag that the current
receive is satisfied. -/
structure prot_main where
  transaction_id : List Byte
  input : Evbuffer
  error : Option prot_error
  tran_queue : List prot_ack_ed25519
  recv_queue : List prot_ack_ed25519
  current_recv_done : Bool
deriving DecidableEq, Repr

/-- Modelled from the spec: `prot_main_set_error`, the transition to the fault state
(section 4.1); it does not touch the transport. -/
def prot_main_set_error (pmain : prot_main) (e : prot_error) : prot_main :=
  { pmain with error := some e }

/-- Modelled from the spec: `prot_main_push_tran`, enqueues an outbound message
(section 4.1). -/
def prot_main_push_tran (pmain : prot_main) (h : prot_ack_ed25519) : prot_main :=
  { pmain with tran_queue := pmain.tran_queue ++ [h] }

/-- Modelled from the spec: `prot_main_push_recv`, registers the handler expected
next (section 4.1). -/
def prot_main_push_recv (pmain : prot_main) (h : prot_ack_ed25519) : prot_main :=
  { pmain with recv_queue := pmain.recv_queue ++ [h] }

/-- The message object `struct prot_friend_req` with its two handlers: storage
handle, contact (`none` for NULL), whether each handler still has its
`cleanup_cb`, the output buffer of the transaction handler, and how many
times `prot_friend_req_free` ran on it. -/
structure prot_friend_req where
  db : sqlite3
  friend : Option db_contact
  hrecv_cleanup_cb : Bool
  htran_cleanup_cb : Bool
  htran_buffer : Evbuffer
  freed : Nat
deriving DecidableEq, Repr

/-- What `prot_friend_req.c` takes from headers that are not among the sources
(`prot_main.h`, `onion.h`), and the signing primitives. -/
structure FriendEnv (H K : Type) where
  PROT_HEADER_LEN : Nat
  ONION_ADDRESS_LEN : Nat
  /-- `prot_header(PROT_FRIEND_REQUEST)`: the header bytes. -/
  prot_header : List Byte
  /-- `onion_address_valid` on the address field. -/
  onion_address_valid : List Byte → Bool
  /-- `onion_extract_key`: the public key of an onion address. -/
  onion_extract_key : List Byte → List Byte
  ed : Ed25519Prim H K

/-- The key material that `tran_setup` generates (lines 64-105): the raw
Ed25519 pair and the DER encodings of the RSA pair. -/
structure generated_keys where
  sig_pub : List Byte
  sig_priv : List Byte
  enc_pub : List Byte
  enc_priv : List Byte
deriving DecidableEq, Repr

/-! ## `prot_friend_req.c` -/

/-- The function `prot_friend_req_free`. -/
def prot_friend_req_free (msg : prot_friend_req) : prot_friend_req :=
  { msg with freed := msg.freed + 1 }

/-- The callback `ack_received_cb` (lines 18-26). -/
def ack_received_cb (ack_success : Bool) (msg : prot_friend_req) : prot_friend_req :=
  let msg1 :=
    match ack_success, msg.friend with
    | true, some f => { msg with db := db_contact_save msg.db f }
    | _, _ => msg
  prot_friend_req_free msg1

/-- The callback `ack_sent_cb` (lines 138-146). -/
def ack_sent_cb (ack_success : Bool) (msg : prot_friend_req) : prot_friend_req :=
  let msg1 :=
    match ack_success, msg.friend with
    | true, some f => { msg with db := db_contact_save msg.db f }
    | _, _ => msg
  prot_friend_req_free msg1

/-- Running the completion callback of an ACK on the message. -/
def run_ack_callback (cb : ack_callback) (ack_success : Bool) (msg : prot_friend_req) :
    prot_friend_req :=
  match cb with
  | .ack_received_cb => ack_received_cb ack_success msg
  | .ack_sent_cb => ack_sent_cb ack_success msg

/-- The callback `tran_done` (lines 29-38); `none` when `msg->friend` is NULL. -/
def tran_done (pmain : prot_main) (msg : prot_friend_req) :
    Option (prot_main × prot_friend_req) :=
  match msg.friend with
  | none => none
  | some f =>
    let msg1 := { msg with htran_cleanup_cb := false }
    let ack : prot_ack_ed25519 := ⟨some f.onion_pub_key, none, .ack_received_cb⟩
    some (prot_main_push_recv pmain ack, msg1)

/-- The callback `tran_cleanup` (lines 41-44). -/
def tran_cleanup (msg : prot_friend_req) : prot_friend_req := prot_friend_req_free msg

/-- The callback `recv_cleanup` (lines 133-136). -/
def recv_cleanup (msg : prot_friend_req) : prot_friend_req := prot_friend_req_free msg

/-- The fields that `tran_setup` puts into the buffer before it signs (lines
115-125). -/
def friend_req_fields {H K : Type} (E : FriendEnv H K) (pmain : prot_main) (o : db_options)
    (f : db_contact) : List (List Byte) :=
  let nick := o.nickname.take CLIENT_NICK_MAX_LEN
  let nick_len : Byte := Fin.ofNat nick.length
  [E.prot_header.take E.PROT_HEADER_LEN,
   pmain.transaction_id.take TRANSACTION_ID_LEN,
   o.onion_address.take E.ONION_ADDRESS_LEN,
   f.local_sig_key_pub.take CLIENT_SIG_KEY_PUB_LEN,
   f.local_enc_key_pub.take CLIENT_ENC_KEY_PUB_LEN,
   o.mailbox_onion_address.take E.ONION_ADDRESS_LEN,
   o.mailbox_id.take MAILBOX_ID_LEN,
   [nick_len],
   nick.take nick_len.val]

/-- The callback `tran_setup` (lines 47-130); `g` is the key material generated, `none`
when `msg->friend` is NULL.  The status of `ed25519_buffer_sign` is not
looked at.  The helper `db_contact_onion_extract_key`, which is not among the
sources, is taken to store the key of the onion address of the contact. -/
def tran_setup {H K : Type} (E : FriendEnv H K) (g : generated_keys) (pmain : prot_main)
    (msg : prot_friend_req) : Option prot_friend_req :=
  match msg.friend with
  | none => none
  | some f =>
    let f1 := { f with
      local_sig_key_pub := mem_write f.local_sig_key_pub g.sig_pub
      local_sig_key_priv := mem_write f.local_sig_key_priv g.sig_priv
      local_enc_key_pub := mem_write f.local_enc_key_pub g.enc_pub
      local_enc_key_priv := mem_write f.local_enc_key_priv g.enc_priv }
    let buffer := (friend_req_fields E pmain msg.db.options f1).foldl evbuffer_add
      msg.htran_buffer
    let f2 := { f1 with onion_pub_key := E.onion_extract_key f1.onion_address }
    some { msg with
      friend := some f2
      htran_buffer := (ed25519_buffer_sign E.ed buffer 0 msg.db.options.onion_private_key).2 }

/-- The length of all fields before the nickname (lines 164-165). -/
def friend_req_static_len {H K : Type} (E : FriendEnv H K) : Nat :=
  E.PROT_HEADER_LEN + TRANSACTION_ID_LEN + E.ONION_ADDRESS_LEN +
    CLIENT_SIG_KEY_PUB_LEN + CLIENT_ENC_KEY_PUB_LEN + E.ONION_ADDRESS_LEN + MAILBOX_ID_LEN + 1

/-- The parsing part of `recv_handle` (lines 201-232), run once the message has
been accepted; `input` is the input buffer and `nick_len` the length byte. -/
def recv_handle_accept {H K : Type} (E : FriendEnv H K) (pmain : prot_main)
    (msg : prot_friend_req) (input : Evbuffer) (nick_len : Byte) : prot_main × prot_friend_req :=
  let input1 := evbuffer_drain input (E.PROT_HEADER_LEN + TRANSACTION_ID_LEN)
  let r_addr := evbuffer_remove input1 E.ONION_ADDRESS_LEN
  let received_onion_address := r_addr.1
  let f0 : db_contact :=
    match db_contact_get_by_onion msg.db received_onion_address with
    | some c => c
    | none =>
      let c := db_contact_new E.ONION_ADDRESS_LEN
      { c with onion_address := mem_write c.onion_address received_onion_address }
  let r_sig := evbuffer_remove r_addr.2 CLIENT_SIG_KEY_PUB_LEN
  let r_enc := evbuffer_remove r_sig.2 CLIENT_ENC_KEY_PUB_LEN
  let r_mbo := evbuffer_remove r_enc.2 E.ONION_ADDRESS_LEN
  let r_mbi := evbuffer_remove r_mbo.2 MAILBOX_ID_LEN
  let mailbox_id := mem_write f0.mailbox_id r_mbi.1
  let input2 := evbuffer_drain r_mbi.2 1
  let r_nick := evbuffer_remove input2 nick_len.val
  let input3 := evbuffer_drain r_nick.2 ED25519_SIGNATURE_LEN
  let f1 : db_contact := { f0 with
    remote_sig_key_pub := mem_write f0.remote_sig_key_pub r_sig.1
    remote_enc_key_pub := mem_write f0.remote_enc_key_pub r_enc.1
    mailbox_onion := mem_write f0.mailbox_onion r_mbo.1
    mailbox_id := mailbox_id
    has_mailbox := decide (mailbox_id.headD 0 ≠ 0)
    nickname_len := nick_len.val
    nickname := mem_write f0.nickname r_nick.1 }
  let onion_priv_key := msg.db.options.onion_private_key
  let ack : prot_ack_ed25519 := ⟨none, some onion_priv_key, .ack_sent_cb⟩
  let pmain1 := prot_main_push_tran { pmain with input := input3 } ack
  ({ pmain1 with current_recv_done := true },
   { msg with friend := some f1, hrecv_cleanup_cb := false })

/-- The callback `recv_handle` (lines 149-233).  `sig_uninit` is the stack content under
the array `sig` of `ed25519_buffer_validate`. -/
def recv_handle {H K : Type} (E : FriendEnv H K) (sig_uninit : List Byte)
    (pmain : prot_main) (msg : prot_friend_req) : prot_main × prot_friend_req :=
  let message_len := friend_req_static_len E
  if evbuffer_get_length pmain.input < message_len then (pmain, msg)
  else
    let input := evbuffer_pullup pmain.input message_len
    let pmain0 := { pmain with input := input }
    let message_static := evbuffer_copyout input message_len
    let nick_len : Byte := message_static.getD (message_len - 1) 0
    if nick_len.val > CLIENT_NICK_MAX_LEN then
      (prot_main_set_error pmain0 .PROT_ERR_INVALID_MSG, msg)
    else
      let message_len1 := message_len + nick_len.val + ED25519_SIGNATURE_LEN
      if evbuffer_get_length input < message_len1 then (pmain0, msg)
      else
        let onion_addr := (message_static.drop
          (E.PROT_HEADER_LEN + TRANSACTION_ID_LEN)).take E.ONION_ADDRESS_LEN
        if E.onion_address_valid onion_addr = false then
          (prot_main_set_error pmain0 .PROT_ERR_INVALID_MSG, msg)
        else
          let received_onion_key := E.onion_extract_key onion_addr
          if ed25519_buffer_validate E.ed input message_len1 received_onion_key sig_uninit = 0
          then (prot_main_set_error pmain0 .PROT_ERR_INVALID_MSG, msg)
          else recv_handle_accept E pmain0 msg input nick_len

/-- The length byte that `recv_handle` reads at the end of the fixed part. -/
def declared_nick_len {H K : Type} (E : FriendEnv H K) (input : Evbuffer) : Byte :=
  input.flatten.getD (friend_req_static_len E - 1) 0

/-- The onion-address field of the buffered message. -/
def onion_field {H K : Type} (E : FriendEnv H K) (input : Evbuffer) : List Byte :=
  (input.flatten.drop (E.PROT_HEADER_LEN + TRANSACTION_ID_LEN)).take E.ONION_ADDRESS_LEN

/-- The digest and signing steps do not fail (they fail in OpenSSL only when
memory runs out). -/
structure NoFailure {H K : Type} (P : Ed25519Prim H K) : Prop where
  init : ∃ h0, P.DigestInit = some h0
  update : ∀ h d, ∃ h1, P.DigestUpdate h d = some h1
  final : ∀ h, ∃ x, P.DigestFinal h = some x
  sign_init : ∀ k, P.DigestSignInit k = true

/-! ## A toy instance of the encryption primitives -/

/-- The context of the toy cipher: the key byte added to each byte and the
input held back. -/
structure toy_ctx where
  key : Byte
  buf : List Byte
deriving DecidableEq, Repr

/-- The wrapped key of the toy suite: the first 8 bytes of the DER key,
zero-filled. -/
def toy_wrap (der : List Byte) : List Byte := (der ++ List.replicate 8 0).take 8

/-- Whether a decrypted last block ends in PKCS#7 padding. -/
def toy_pad_ok (d : List Byte) : Bool :=
  let p := (d.getLastD 0).val
  decide (d.length = 16 ∧ 1 ≤ p ∧ p ≤ 16 ∧ d.drop (16 - p) = List.replicate p (Fin.ofNat p))

/-- Toy primitives: a byte-wise shift cipher on 16-byte blocks with PKCS#7
padding; the decoders accept any non-empty key; a wrapped key opens under the
DER key it was wrapped for. -/
def toyRsa : RsaPrim (List Byte) toy_ctx where
  pub_key_decode k := if k = [] then none else some k
  priv_key_decode k := if k = [] then none else some k
  pkey_size _ := 8
  SealInit k := some (⟨3, []⟩, toy_wrap k, List.replicate 16 7)
  SealUpdate c inp :=
    let all := c.buf ++ inp
    let k := all.length / 16 * 16
    some (⟨c.key, all.drop k⟩, (all.take k).map (fun b => b + c.key))
  SealFinal c :=
    let pad := 16 - c.buf.length % 16
    some ((c.buf ++ List.replicate pad (Fin.ofNat pad)).map (fun b => b + c.key))
  OpenInit k ek _ := if ek = toy_wrap k then some ⟨3, []⟩ else none
  OpenUpdate c inp :=
    let all := c.buf ++ inp
    let k := (all.length - 1) / 16 * 16
    some (⟨c.key, all.drop k⟩, (all.take k).map (fun b => b - c.key))
  OpenFinal c :=
    let d := c.buf.map (fun b => b - c.key)
    if toy_pad_ok d then (true, d.take (16 - (d.getLastD 0).val)) else (false, [])
  buf_len c := c.buf.length

/-! ## A toy instance of the signing primitives -/

/-- A toy signature: key, then hash, cut or zero-filled to 64 bytes. -/
def toy_signature (k h : List Byte) : List Byte :=
  (k ++ h ++ List.replicate 64 0).take 64

/-- Toy primitives: the digest context collects the bytes fed, the hash is
their sum and count followed by the bytes, and a signature verifies when it is
the toy signature under the same key. -/
def toyEd : Ed25519Prim (List Byte) (List Byte) where
  DigestInit := some []
  DigestUpdate h d := some (h ++ d)
  DigestFinal h := some (h.sum :: Fin.ofNat h.length :: h)
  new_raw_private_key k := some k
  new_raw_public_key k := some k
  DigestSignInit _ := true
  DigestSign k h := toy_signature k h
  DigestVerifyInit _ := true
  DigestVerify k sig h := if sig = toy_signature k h then 1 else 0

/-- A toy environment of the handshake: 2-byte header, 4-byte onion addresses
that are valid when they do not start with 0, and the address itself as its
public key. -/
def toyEnv : FriendEnv (List Byte) (List Byte) where
  PROT_HEADER_LEN := 2
  ONION_ADDRESS_LEN := 4
  prot_header := [1, 1]
  onion_address_valid a := decide (a.length = 4 ∧ a.headD 0 ≠ 0)
  onion_extract_key a := a
  ed := toyEd

/-- A toy connection state with the given input and nothing else. -/
def toy_pmain (input : Evbuffer) : prot_main where
  transaction_id := List.replicate 16 9
  input := input
  error := none
  tran_queue := []
  recv_queue := []
  current_recv_done := false

/-- Toy local options: onion address 5 6 7 8 with itself as private key, no
mailbox, and the given nickname. -/
def toy_options (nickname : List Byte) : db_options where
  onion_address := [5, 6, 7, 8]
  onion_private_key := [5, 6, 7, 8]
  mailbox_id := List.replicate 16 0
  mailbox_onion_address := List.replicate 4 0
  nickname := nickname

/-- A toy message object as `prot_friend_req_new` makes it: empty storage but for
the options, the given contact, both cleanups set, an empty buffer. -/
def toy_msg (nickname : List Byte) (friend : Option db_contact) : prot_friend_req where
  db := ⟨toy_options nickname, []⟩
  friend := friend
  hrecv_cleanup_cb := true
  htran_cleanup_cb := true
  htran_buffer := []
  freed := 0

/-- Toy generated keys of the wire widths. -/
def toy_keys : generated_keys where
  sig_pub := List.replicate 32 1
  sig_priv := List.replicate 64 2
  enc_pub := List.replicate 526 3
  enc_priv := List.replicate 2348 4

/-! ## Acceptance, and the life of the message object -/

/-- The conditions under which `recv_handle` reaches line 201 and takes the
message: the whole message is buffered (lines 169 and 185), the onion-address
field is valid (line 190) and `ed25519_buffer_validate` does not return 0
(line 196). -/
def recv_accepts {H K : Type} (E : FriendEnv H K) (sig_uninit : List Byte)
    (pmain : prot_main) : Prop :=
  friend_req_static_len E + (declared_nick_len E pmain.input).val + ED25519_SIGNATURE_LEN ≤
    evbuffer_get_length pmain.input ∧
  E.onion_address_valid (onion_field E pmain.input) = true ∧
  ed25519_buffer_validate E.ed (evbuffer_pullup pmain.input (friend_req_static_len E))
    (friend_req_static_len E + (declared_nick_len E pmain.input).val + ED25519_SIGNATURE_LEN)
    (E.onion_extract_key (onion_field E pmain.input)) sig_uninit ≠ 0

/-- The mailbox-id field of the buffered message: the 16 bytes before the
nickname-length byte. -/
def mailbox_id_field {H K : Type} (E : FriendEnv H K) (input : Evbuffer) : List Byte :=
  (input.flatten.drop (E.PROT_HEADER_LEN + TRANSACTION_ID_LEN + E.ONION_ADDRESS_LEN +
    CLIENT_SIG_KEY_PUB_LEN + CLIENT_ENC_KEY_PUB_LEN + E.ONION_ADDRESS_LEN)).take MAILBOX_ID_LEN

/-- Modelled from the spec: the engine discards a receive handler (sections 4.2
and 4.3: `cleanup` runs when the handler is discarded without a transferred
owner): it calls `cleanup_cb`, here `recv_cleanup`, when it is not NULL. -/
def engine_discard_recv (msg : prot_friend_req) : prot_friend_req :=
  if msg.hrecv_cleanup_cb then recv_cleanup msg else msg

/-- Modelled from the spec: the engine discards a transaction handler: it calls
`cleanup_cb`, here `tran_cleanup`, when it is not NULL. -/
def engine_discard_tran (msg : prot_friend_req) : prot_friend_req :=
  if msg.htran_cleanup_cb then tran_cleanup msg else msg

/-- Modelled from the spec: the ACKs complete (section 4.5: on completion an ACK
invokes its single completion callback with a success flag and the message;
line 17: called when the ACK is received or cleaned up): each runs its
callback once. -/
def complete_acks (acks : List prot_ack_ed25519) (ack_success : Bool)
    (msg : prot_friend_req) : prot_friend_req :=
  acks.foldl (fun m a => run_ack_callback a.cb ack_success m) msg

/-- One call of `recv_handle`, after which the engine discards the handler and
the ACK transactions pushed by the call complete. -/
def recv_lifecycle {H K : Type} (E : FriendEnv H K) (sig_uninit : List Byte)
    (pmain : prot_main) (msg : prot_friend_req) (ack_success : Bool) : prot_friend_req :=
  let r := recv_handle E sig_uninit pmain msg
  complete_acks (r.1.tran_queue.drop pmain.tran_queue.length) ack_success
    (engine_discard_recv r.2)

/-- The call of `tran_done`, after which the engine discards the handler and the
ACK receive handlers pushed by the call complete; `none` when `msg->friend` is
NULL. -/
def tran_lifecycle (pmain : prot_main) (msg : prot_friend_req) (ack_success : Bool) :
    Option prot_friend_req :=
  match tran_done pmain msg with
  | none => none
  | some r =>
    some (complete_acks (r.1.recv_queue.drop pmain.recv_queue.length) ack_success
      (engine_discard_tran r.2))

/-- The bytes of the friend request that `tran_setup` builds in the toy
environment for a sender with the given mailbox id and nickname. -/
def toy_request (mailbox_id nickname : List Byte) : List Byte :=
  match tran_setup toyEnv toy_keys (toy_pmain [])
      { toy_msg nickname (some (db_contact_new 4)) with
        db := ⟨{ toy_options nickname with mailbox_id := mailbox_id }, []⟩ } with
  | none => []
  | some m => m.htran_buffer.flatten

/-- The envelope that `rsa_buffer_encrypt` appends to an empty buffer for the
one-byte plaintext 65 under the toy cipher and the DER key 1 2: 4 bytes of
length, 16 of ciphertext, 8 of wrapped key, 16 of IV. -/
def toy_envelope : List Byte := (rsa_buffer_encrypt toyRsa [[65]] [1, 2] []).2.flatten

/-! ## Arithmetic and buffer lemmas -/

theorem size_sub_of_le (a b : Nat) (hb : b ≤ a) (ha : a < SIZE_MOD) : size_sub a b = a - b := by
  unfold size_sub SIZE_MOD at *
  omega

theorem ssize_of_size_small (a : Nat) (ha : a < EV_SSIZE_LIMIT) :
    ssize_of_size a = (a : Int) := by
  unfold EV_SSIZE_LIMIT at ha
  unfold ssize_of_size SIZE_MOD
  have h : a % 18446744073709551616 = a := Nat.mod_eq_of_lt (by omega)
  rw [h, if_pos ha]

theorem c_min_eq (a b : Nat) : c_min a b = min a b := by
  unfold c_min
  split <;> omega

theorem peek_chains_nil_of_le (cs : List (List Byte)) (so_far len : Nat) (h : len ≤ so_far) :
    peek_chains cs so_far len = [] := by
  cases cs with
  | nil => rfl
  | cons c cs => simp [peek_chains, h]

/-- The slices fed by the chunk loop over the peeked extents concatenate to the
first `rem` bytes of the chains. -/
theorem digest_loop_fed_peek (cs : List (List Byte)) :
    ∀ (so_far len rem : Nat), so_far + rem = len → rem < SIZE_MOD →
      (digest_loop_fed (peek_chains cs so_far len) rem).flatten = cs.flatten.take rem := by
  induction cs with
  | nil => intro so_far len rem _ _; simp [peek_chains, digest_loop_fed]
  | cons c cs ih =>
    intro so_far len rem hsum hrem
    by_cases h0 : len ≤ so_far
    · have : rem = 0 := by omega
      subst this
      simp [peek_chains, h0, digest_loop_fed]
    · simp only [peek_chains, if_neg h0, digest_loop_fed, List.flatten_cons, c_min_eq]
      by_cases hc : rem ≤ c.length
      · rw [peek_chains_nil_of_le cs _ _ (by omega)]
        simp only [digest_loop_fed, List.flatten_nil, List.append_nil]
        rw [Nat.min_eq_right hc, List.take_append_of_le_length hc]
      · have hc1 : c.length < rem := by omega
        rw [Nat.min_eq_left (by omega), List.take_length,
          size_sub_of_le rem c.length (by omega) hrem,
          ih (so_far + c.length) len (rem - c.length) (by omega) (by omega)]
        rw [List.take_append_eq_append_take, List.take_of_length_le (l := c) (by omega)]

theorem digest_loop_eq_feed {H K : Type} (P : Ed25519Prim H K) (ext : List (List Byte)) :
    ∀ (h : H) (len : Nat), digest_loop P h ext len = digest_feed P h (digest_loop_fed ext len) := by
  induction ext with
  | nil => intro h len; rfl
  | cons c cs ih =>
    intro h len
    simp only [digest_loop, digest_feed, digest_loop_fed]
    cases hu : P.DigestUpdate h (c.take (c_min c.length len)) with
    | none => rfl
    | some h1 => simp [ih]

theorem digest_feed_flatten {H K : Type} (P : Ed25519Prim H K) (hd : DigestLaws P)
    (ss : List (List Byte)) :
    ∀ (h : H), digest_feed P h ss = P.DigestUpdate h ss.flatten := by
  induction ss with
  | nil => intro h; simp [digest_feed, hd.update_nil]
  | cons s ss ih =>
    intro h
    simp only [digest_feed, List.flatten_cons, hd.update_append]
    cases hu : P.DigestUpdate h s with
    | none => rfl
    | some h1 => simp [ih]

theorem evbuffer_peek_small (buff : Evbuffer) (l : Nat) (hl : l < EV_SSIZE_LIMIT) :
    evbuffer_peek buff (ssize_of_size l) = peek_chains buff 0 l := by
  unfold evbuffer_peek
  rw [ssize_of_size_small l hl, if_neg (by omega), Int.toNat_ofNat]

theorem fed_peek_small (buff : Evbuffer) (l : Nat) (hl : l < EV_SSIZE_LIMIT) :
    (digest_loop_fed (evbuffer_peek buff (ssize_of_size l)) l).flatten = buff.flatten.take l := by
  rw [evbuffer_peek_small buff l hl]
  exact digest_loop_fed_peek buff 0 l l (by omega) (by unfold EV_SSIZE_LIMIT at hl; unfold SIZE_MOD; omega)

theorem digest_loop_peek {H K : Type} (P : Ed25519Prim H K) (hd : DigestLaws P) (buff : Evbuffer)
    (h0 : H) (l : Nat) (hl : l < EV_SSIZE_LIMIT) :
    digest_loop P h0 (evbuffer_peek buff (ssize_of_size l)) l =
      P.DigestUpdate h0 (buff.flatten.take l) := by
  rw [digest_loop_eq_feed, digest_feed_flatten P hd, fed_peek_small buff l hl]

theorem ptr_walk_found (cs : List (List Byte)) :
    ∀ (idx left : Nat), left < cs.flatten.length → ∃ i l, ptr_walk cs idx left = (some i, l) := by
  induction cs with
  | nil => intro idx left h; simp at h
  | cons c cs ih =>
    intro idx left h
    simp only [ptr_walk]
    split
    · apply ih
      simp only [List.flatten_cons, List.length_append] at h
      omega
    · exact ⟨idx, left, rfl⟩

theorem evbuffer_ptr_set_pos (buf : Evbuffer) (p : Nat) (hp : p < buf.flatten.length)
    (hs : p < EV_SSIZE_LIMIT) : (evbuffer_ptr_set buf p).pos = (p : Int) := by
  obtain ⟨i, l, h⟩ := ptr_walk_found buf 0 p hp
  unfold evbuffer_ptr_set
  rw [h]
  exact ssize_of_size_small p hs

theorem validate_sig_eq (layout : Evbuffer) (m sig su : List Byte)
    (hc : layout.flatten = m ++ sig) (hsig : sig.length = ED25519_SIGNATURE_LEN)
    (hs : m.length + ED25519_SIGNATURE_LEN < EV_SSIZE_LIMIT) :
    validate_sig layout (m.length + ED25519_SIGNATURE_LEN) su = sig := by
  have h64 : ED25519_SIGNATURE_LEN = 64 := rfl
  have hcl : validate_content_len (m.length + ED25519_SIGNATURE_LEN) = m.length := by
    unfold validate_content_len
    rw [size_sub_of_le _ _ (by omega) (by unfold EV_SSIZE_LIMIT at hs; unfold SIZE_MOD; omega)]
    omega
  have hpos : (evbuffer_ptr_set layout m.length).pos = (m.length : Int) :=
    evbuffer_ptr_set_pos layout m.length (by rw [hc, List.length_append]; omega) (by omega)
  have hcopy : evbuffer_copyout_from layout (evbuffer_ptr_set layout m.length)
      ED25519_SIGNATURE_LEN = sig := by
    unfold evbuffer_copyout_from
    rw [hpos, if_neg (by omega), hc, Int.toNat_ofNat, List.drop_left]
    exact List.take_of_length_le (by omega)
  unfold validate_sig mem_write
  rw [hcl, hcopy, List.take_append_of_le_length (by omega)]
  exact List.take_of_length_le (by omega)

/-- The outcome of validation on a buffer that holds a message followed by a signature. -/
theorem validate_eq {H K : Type} (P : Ed25519Prim H K) (hd : DigestLaws P) (layout : Evbuffer)
    (m sig su pub : List Byte) (hc : layout.flatten = m ++ sig)
    (hsig : sig.length = ED25519_SIGNATURE_LEN)
    (hs : m.length + ED25519_SIGNATURE_LEN < EV_SSIZE_LIMIT)
    (kv : K) (h0 h1 : H) (hash : List Byte)
    (hkv : P.new_raw_public_key (pub.take ED25519_PUB_KEY_LEN) = some kv)
    (hi : P.DigestInit = some h0) (hu : P.DigestUpdate h0 m = some h1)
    (hf : P.DigestFinal h1 = some hash) (hvi : P.DigestVerifyInit kv = true) :
    ed25519_buffer_validate P layout (m.length + ED25519_SIGNATURE_LEN) pub su =
      P.DigestVerify kv sig hash := by
  have h64 : ED25519_SIGNATURE_LEN = 64 := rfl
  have hcl : validate_content_len (m.length + ED25519_SIGNATURE_LEN) = m.length := by
    unfold validate_content_len
    rw [size_sub_of_le _ _ (by omega) (by unfold EV_SSIZE_LIMIT at hs; unfold SIZE_MOD; omega)]
    omega
  unfold ed25519_buffer_validate
  simp only [hkv, hi, validate_sig_eq layout m sig su hc hsig hs, hcl]
  rw [digest_loop_peek P hd layout h0 m.length (by omega), hc, List.take_left, hu]
  simp [hf, hvi]

/-- What a successful `ed25519_buffer_sign` computed. -/
theorem sign_success {H K : Type} (P : Ed25519Prim H K) (buff buff1 : Evbuffer) (len : Nat)
    (priv_key : List Byte) (hs : ed25519_buffer_sign P buff len priv_key = (0, buff1)) :
    ∃ h0 h1 hash pkey, P.DigestInit = some h0 ∧
      P.new_raw_private_key (priv_key.take ED25519_PRIV_KEY_LEN) = some pkey ∧
      P.DigestSignInit pkey = true ∧
      digest_loop P h0 (evbuffer_peek buff (ssize_of_size (sign_len buff len)))
        (sign_len buff len) = some h1 ∧
      P.DigestFinal h1 = some hash ∧
      buff1 = evbuffer_add buff (P.DigestSign pkey hash) := by
  unfold ed25519_buffer_sign at hs
  cases hi : P.DigestInit with
  | none => simp [hi] at hs
  | some h0 =>
    cases hk : P.new_raw_private_key (priv_key.take ED25519_PRIV_KEY_LEN) with
    | none => simp [hi, hk] at hs
    | some pkey =>
      cases hsi : P.DigestSignInit pkey with
      | false => simp [hi, hk, hsi] at hs
      | true =>
        cases hl : digest_loop P h0 (evbuffer_peek buff (ssize_of_size (sign_len buff len)))
            (sign_len buff len) with
        | none => simp [hi, hk, hsi, hl] at hs
        | some h1 =>
          cases hf : P.DigestFinal h1 with
          | none => simp [hi, hk, hsi, hl, hf] at hs
          | some hash =>
            simp [hi, hk, hsi, hl, hf] at hs
            exact ⟨h0, h1, hash, pkey, rfl, rfl, hsi, hl, hf, hs.symm⟩

/-- When every step succeeds, `ed25519_buffer_sign` returns 0 and appends the signature. -/
theorem sign_of_steps {H K : Type} (P : Ed25519Prim H K) (buff : Evbuffer) (len : Nat)
    (priv_key : List Byte) (h0 h1 : H) (hash : List Byte) (pkey : K)
    (hi : P.DigestInit = some h0)
    (hk : P.new_raw_private_key (priv_key.take ED25519_PRIV_KEY_LEN) = some pkey)
    (hsi : P.DigestSignInit pkey = true)
    (hl : digest_loop P h0 (evbuffer_peek buff (ssize_of_size (sign_len buff len)))
        (sign_len buff len) = some h1)
    (hf : P.DigestFinal h1 = some hash) :
    ed25519_buffer_sign P buff len priv_key = (0, evbuffer_add buff (P.DigestSign pkey hash)) := by
  unfold ed25519_buffer_sign
  simp [hi, hk, hsi, hl, hf]

theorem flatten_evbuffer_add (buf : Evbuffer) (d : List Byte) :
    (evbuffer_add buf d).flatten = buf.flatten ++ d := by
  simp [evbuffer_add]

theorem sign_len_le (buff : Evbuffer) (len : Nat) (hlen : len ≤ evbuffer_get_length buff) :
    sign_len buff len ≤ evbuffer_get_length buff := by
  unfold sign_len; split <;> omega

theorem toy_signature_length (k h : List Byte) : (toy_signature k h).length = 64 := by
  simp only [toy_signature, List.length_take, List.length_append, List.length_replicate]
  omega

theorem toyEd_signature_len : SignatureLen toyEd := fun k h => toy_signature_length k h

theorem toyEd_digest_laws : DigestLaws toyEd where
  update_nil := by intro h; simp [toyEd]
  update_append := by intro h a b; simp [toyEd]

theorem toyEd_key_pair (k : List Byte) : KeyPair toyEd k k :=
  ⟨k.take ED25519_PRIV_KEY_LEN, k.take ED25519_PUB_KEY_LEN, rfl, rfl, rfl, by
    intro h; simp [toyEd, ED25519_PRIV_KEY_LEN, ED25519_PUB_KEY_LEN]⟩

theorem peek_chains_flatten (cs : List (List Byte)) :
    ∀ (so_far len : Nat), so_far + cs.flatten.length ≤ len →
      (peek_chains cs so_far len).flatten = cs.flatten := by
  induction cs with
  | nil => intro _ _ _; rfl
  | cons c cs ih =>
    intro so_far len h
    simp only [List.flatten_cons, List.length_append] at h
    by_cases h0 : len ≤ so_far
    · have hc : c = [] := List.length_eq_zero.mp (by omega)
      have hcs : cs.flatten = [] := List.length_eq_zero.mp (by omega)
      simp [peek_chains, h0, hc, hcs]
    · simp only [peek_chains, if_neg h0, List.flatten_cons]
      rw [ih (so_far + c.length) len (by omega)]

/-- The loop of `rsa_buffer_encrypt` appends the full blocks of the input and
leaves the rest in the context. -/
theorem seal_loop_length {K C : Type} (P : RsaPrim K C) (hs : SealLaws P)
    (chunks : List (List Byte)) :
    ∀ (c c1 : C) (enc enc1 : Evbuffer), P.buf_len c < 16 →
      seal_loop P c chunks enc = (some c1, enc1) →
      ∃ ct, enc1.flatten = enc.flatten ++ ct ∧
        ct.length = (P.buf_len c + chunks.flatten.length) / 16 * 16 ∧
        P.buf_len c1 = (P.buf_len c + chunks.flatten.length) % 16 := by
  induction chunks with
  | nil =>
    intro c c1 enc enc1 hb h
    simp only [seal_loop, Prod.mk.injEq, Option.some.injEq] at h
    obtain ⟨hc, he⟩ := h
    subst hc; subst he
    refine ⟨[], by simp, ?_, ?_⟩ <;> simp <;> omega
  | cons ch chunks ih =>
    intro c c1 enc enc1 hb h
    simp only [seal_loop] at h
    cases hu : P.SealUpdate c ch with
    | none => simp [hu] at h
    | some r =>
      obtain ⟨c2, out⟩ := r
      simp only [hu] at h
      obtain ⟨hol, hbl⟩ := hs.update_len c ch c2 out hu
      simp only [AES_BLOCK_SIZE] at hol hbl
      obtain ⟨ct, hf, hl, hb2⟩ := ih c2 c1 _ enc1 (by omega) h
      refine ⟨out ++ ct, ?_, ?_, ?_⟩
      · rw [hf]; simp [evbuffer_commit_space]
      · simp only [List.length_append, List.flatten_cons, hol, hl, hbl]; omega
      · simp only [List.length_append, List.flatten_cons, hb2, hbl]; omega

theorem be32_length (v : Nat) : (be32 v).length = 4 := rfl

theorem ntohl_be32 (v : Nat) (hv : v < 4294967296) : ntohl_bytes (be32 v) = v := by
  simp only [ntohl_bytes, be32, List.take, List.foldl, Fin.ofNat, Fin.val_mk]
  omega

theorem toyRsa_seal_laws : SealLaws toyRsa where
  init_buf := by
    intro k c ek iv h
    simp only [toyRsa, Option.some.injEq, Prod.mk.injEq] at h
    obtain ⟨hc, _, hiv⟩ := h
    subst hc; subst hiv
    exact ⟨rfl, rfl⟩
  update_len := by
    intro c inp c1 out h
    simp only [toyRsa, Option.some.injEq, Prod.mk.injEq] at h
    obtain ⟨hc, ho⟩ := h
    subst hc; subst ho
    simp only [toyRsa, AES_BLOCK_SIZE, List.length_map, List.length_take, List.length_drop,
      List.length_append]
    omega
  final_len := by
    intro c out hb h
    simp only [toyRsa, Option.some.injEq] at h hb
    subst h
    simp only [AES_BLOCK_SIZE, List.length_map, List.length_append, List.length_replicate] at hb ⊢
    omega

theorem flatten_drain (buf : Evbuffer) : ∀ n, (evbuffer_drain buf n).flatten = buf.flatten.drop n := by
  induction buf with
  | nil => intro n; simp [evbuffer_drain]
  | cons c cs ih =>
    intro n
    simp only [evbuffer_drain]
    split
    · next h =>
      rw [ih, List.flatten_cons, List.drop_append_eq_append_drop, List.drop_of_length_le h]
      rfl
    · next h =>
      rw [List.flatten_cons, List.flatten_cons, List.drop_append_eq_append_drop]
      have : n - c.length = 0 := by omega
      rw [this, List.drop_zero]

theorem flatten_pullup (buf : Evbuffer) (n : Nat) : (evbuffer_pullup buf n).flatten = buf.flatten := by
  unfold evbuffer_pullup
  cases buf with
  | nil => rfl
  | cons c cs =>
    simp only
    split
    · rfl
    · split
      · rfl
      · rw [List.flatten_cons, flatten_drain, List.take_append_drop]

theorem length_pullup (buf : Evbuffer) (n : Nat) :
    evbuffer_get_length (evbuffer_pullup buf n) = evbuffer_get_length buf := by
  unfold evbuffer_get_length; rw [flatten_pullup]

theorem getD_take (l : List Byte) (i n : Nat) (d : Byte) (h : i < n) :
    (l.take n).getD i d = l.getD i d := by
  simp only [List.getD_eq_getElem?_getD, List.getElem?_take, if_pos h]

theorem take_drop_take (l : List Byte) (a b n : Nat) (h : a + b ≤ n) :
    ((l.take n).drop a).take b = (l.drop a).take b := by
  rw [List.drop_take, List.take_take, Nat.min_eq_left (by omega)]

/-- The control flow of `recv_handle` in terms of the content of the input. -/
theorem recv_handle_eq {H K : Type} (E : FriendEnv H K) (sig_uninit : List Byte)
    (pmain : prot_main) (msg : prot_friend_req) :
    recv_handle E sig_uninit pmain msg =
      if evbuffer_get_length pmain.input < friend_req_static_len E then (pmain, msg)
      else if evbuffer_get_length pmain.input < friend_req_static_len E +
          (declared_nick_len E pmain.input).val + ED25519_SIGNATURE_LEN then
        ({ pmain with input := evbuffer_pullup pmain.input (friend_req_static_len E) }, msg)
      else if E.onion_address_valid (onion_field E pmain.input) = false then
        (prot_main_set_error
          { pmain with input := evbuffer_pullup pmain.input (friend_req_static_len E) }
          .PROT_ERR_INVALID_MSG, msg)
      else if ed25519_buffer_validate E.ed
          (evbuffer_pullup pmain.input (friend_req_static_len E))
          (friend_req_static_len E + (declared_nick_len E pmain.input).val +
            ED25519_SIGNATURE_LEN)
          (E.onion_extract_key (onion_field E pmain.input)) sig_uninit = 0 then
        (prot_main_set_error
          { pmain with input := evbuffer_pullup pmain.input (friend_req_static_len E) }
          .PROT_ERR_INVALID_MSG, msg)
      else recv_handle_accept E
        { pmain with input := evbuffer_pullup pmain.input (friend_req_static_len E) } msg
        (evbuffer_pullup pmain.input (friend_req_static_len E))
        (declared_nick_len E pmain.input) := by
  have hP : 0 < friend_req_static_len E := by unfold friend_req_static_len; omega
  have hnb : (evbuffer_copyout (evbuffer_pullup pmain.input (friend_req_static_len E))
      (friend_req_static_len E)).getD (friend_req_static_len E - 1) 0 =
      declared_nick_len E pmain.input := by
    unfold evbuffer_copyout declared_nick_len
    rw [flatten_pullup, getD_take _ _ _ _ (by omega)]
  have hof : ((evbuffer_copyout (evbuffer_pullup pmain.input (friend_req_static_len E))
      (friend_req_static_len E)).drop (E.PROT_HEADER_LEN + TRANSACTION_ID_LEN)).take
        E.ONION_ADDRESS_LEN = onion_field E pmain.input := by
    unfold evbuffer_copyout onion_field
    rw [flatten_pullup, take_drop_take _ _ _ _ (by unfold friend_req_static_len; omega)]
  have hnick : ¬ (declared_nick_len E pmain.input).val > CLIENT_NICK_MAX_LEN := by
    unfold CLIENT_NICK_MAX_LEN; omega
  unfold recv_handle
  simp only [hnb, hof, if_neg hnick, length_pullup]

/-- What `recv_handle_accept` does to the connection state. -/
theorem recv_handle_accept_pmain {H K : Type} (E : FriendEnv H K) (pmain : prot_main)
    (msg : prot_friend_req) (input : Evbuffer) (nick_len : Byte) :
    (recv_handle_accept E pmain msg input nick_len).1.current_recv_done = true ∧
    (recv_handle_accept E pmain msg input nick_len).1.error = pmain.error ∧
    (recv_handle_accept E pmain msg input nick_len).1.tran_queue =
      pmain.tran_queue ++ [⟨none, some msg.db.options.onion_private_key, .ack_sent_cb⟩] ∧
    (recv_handle_accept E pmain msg input nick_len).1.recv_queue = pmain.recv_queue ∧
    (recv_handle_accept E pmain msg input nick_len).2.hrecv_cleanup_cb = false := by
  simp [recv_handle_accept, prot_main_push_tran]

theorem take_mem_write (dst src : List Byte) (n : Nat) (h : src.length = n) :
    (mem_write dst src).take n = src := by
  unfold mem_write
  rw [← h, List.take_left]

theorem remove_fst (buf : Evbuffer) (a rest : List Byte) (n : Nat) (h : buf.flatten = a ++ rest)
    (hn : a.length = n) : (evbuffer_remove buf n).1 = a := by
  unfold evbuffer_remove evbuffer_copyout
  rw [h, ← hn, List.take_left]

theorem remove_snd (buf : Evbuffer) (a rest : List Byte) (n : Nat) (h : buf.flatten = a ++ rest)
    (hn : a.length = n) : (evbuffer_remove buf n).2.flatten = rest := by
  unfold evbuffer_remove
  rw [flatten_drain, h, ← hn, List.drop_left]

theorem drain_flatten (buf : Evbuffer) (a rest : List Byte) (n : Nat) (h : buf.flatten = a ++ rest)
    (hn : a.length = n) : (evbuffer_drain buf n).flatten = rest := by
  rw [flatten_drain, h, ← hn, List.drop_left]

theorem contact_onion_take (db : sqlite3) (addr : List Byte) (n : Nat) (hn : addr.length = n) :
    (match db_contact_get_by_onion db addr with
      | some c => c
      | none =>
        { db_contact_new n with
          onion_address := mem_write (db_contact_new n).onion_address addr }
      ).onion_address.take n = addr := by
  cases hf : db_contact_get_by_onion db addr with
  | some c =>
    unfold db_contact_get_by_onion at hf
    have := List.find?_some hf
    simp only [decide_eq_true_eq] at this
    simp only [this]
    exact List.take_of_length_le (by omega)
  | none => exact take_mem_write _ _ _ hn

/-- The fields that `recv_handle_accept` stores, for an input that starts with a
message of the wire layout. -/
theorem recv_handle_accept_fields {H K : Type} (E : FriendEnv H K) (pmain : prot_main)
    (msg : prot_friend_req) (input : Evbuffer) (nick_len : Byte)
    (ht addr sk ek mbo mbi nlb nick sig rest : List Byte)
    (hin : input.flatten =
      ht ++ (addr ++ (sk ++ (ek ++ (mbo ++ (mbi ++ (nlb ++ (nick ++ (sig ++ rest)))))))))
    (hht : ht.length = E.PROT_HEADER_LEN + TRANSACTION_ID_LEN)
    (haddr : addr.length = E.ONION_ADDRESS_LEN) (hsk : sk.length = CLIENT_SIG_KEY_PUB_LEN)
    (hek : ek.length = CLIENT_ENC_KEY_PUB_LEN) (hmbo : mbo.length = E.ONION_ADDRESS_LEN)
    (hmbi : mbi.length = MAILBOX_ID_LEN) (hnlb : nlb.length = 1)
    (hnick : nick.length = nick_len.val) (hsig : sig.length = ED25519_SIGNATURE_LEN) :
    ∃ c, (recv_handle_accept E pmain msg input nick_len).2.friend = some c ∧
      c.onion_address.take E.ONION_ADDRESS_LEN = addr ∧
      c.remote_sig_key_pub.take CLIENT_SIG_KEY_PUB_LEN = sk ∧
      c.remote_enc_key_pub.take CLIENT_ENC_KEY_PUB_LEN = ek ∧
      c.mailbox_onion.take E.ONION_ADDRESS_LEN = mbo ∧
      c.mailbox_id.take MAILBOX_ID_LEN = mbi ∧
      c.has_mailbox = decide (mbi.headD 0 ≠ 0) ∧
      c.nickname_len = nick_len.val ∧
      c.nickname.take nick_len.val = nick ∧
      (recv_handle_accept E pmain msg input nick_len).1.input.flatten = rest := by
  have h1 := drain_flatten input ht _ _ hin hht
  have a1 := remove_fst _ addr _ _ h1 haddr
  have h2 := remove_snd _ addr _ _ h1 haddr
  have a2 := remove_fst _ sk _ _ h2 hsk
  have h3 := remove_snd _ sk _ _ h2 hsk
  have a3 := remove_fst _ ek _ _ h3 hek
  have h4 := remove_snd _ ek _ _ h3 hek
  have a4 := remove_fst _ mbo _ _ h4 hmbo
  have h5 := remove_snd _ mbo _ _ h4 hmbo
  have a5 := remove_fst _ mbi _ _ h5 hmbi
  have h6 := remove_snd _ mbi _ _ h5 hmbi
  have h7 := drain_flatten _ nlb _ _ h6 hnlb
  have a7 := remove_fst _ nick _ _ h7 hnick
  have h8 := remove_snd _ nick _ _ h7 hnick
  have h9 := drain_flatten _ sig _ _ h8 hsig
  refine ⟨_, rfl, ?_, ?_, ?_, ?_, ?_, ?_, rfl, ?_, ?_⟩
  · simp only [a1]
    exact contact_onion_take msg.db addr _ haddr
  · simp only [a2]; exact take_mem_write _ _ _ hsk
  · simp only [a3]; exact take_mem_write _ _ _ hek
  · simp only [a4]; exact take_mem_write _ _ _ hmbo
  · simp only [a5]; exact take_mem_write _ _ _ hmbi
  · dsimp only
    rw [a5]
    unfold mem_write
    cases mbi with
    | nil => simp [MAILBOX_ID_LEN] at hmbi
    | cons b bs => rfl
  · simp only [a7]; exact take_mem_write _ _ _ hnick
  · exact h9

theorem byte_ofNat_val (n : Nat) (h : n ≤ 255) : ((Fin.ofNat n : Byte)).val = n := by
  simp only [Fin.ofNat, Fin.val_mk]
  omega

/-- The unsigned message that `tran_setup` assembles. -/
theorem friend_req_fields_eq {H K : Type} (E : FriendEnv H K) (g : generated_keys)
    (pmain : prot_main) (o : db_options) (f : db_contact)
    (hhdr : E.prot_header.length = E.PROT_HEADER_LEN)
    (htxn : pmain.transaction_id.length = TRANSACTION_ID_LEN)
    (haddr : o.onion_address.length = E.ONION_ADDRESS_LEN)
    (hsk : g.sig_pub.length = CLIENT_SIG_KEY_PUB_LEN)
    (hek : g.enc_pub.length = CLIENT_ENC_KEY_PUB_LEN)
    (hmbo : o.mailbox_onion_address.length = E.ONION_ADDRESS_LEN)
    (hmbi : o.mailbox_id.length = MAILBOX_ID_LEN)
    (hnick : o.nickname.length ≤ CLIENT_NICK_MAX_LEN) :
    friend_req_fields E pmain o
      { f with
        local_sig_key_pub := mem_write f.local_sig_key_pub g.sig_pub
        local_sig_key_priv := mem_write f.local_sig_key_priv g.sig_priv
        local_enc_key_pub := mem_write f.local_enc_key_pub g.enc_pub
        local_enc_key_priv := mem_write f.local_enc_key_priv g.enc_priv } =
      [E.prot_header, pmain.transaction_id, o.onion_address, g.sig_pub, g.enc_pub,
        o.mailbox_onion_address, o.mailbox_id, [Fin.ofNat o.nickname.length], o.nickname] := by
  have hn : o.nickname.take CLIENT_NICK_MAX_LEN = o.nickname := List.take_of_length_le hnick
  have hv := byte_ofNat_val o.nickname.length (by unfold CLIENT_NICK_MAX_LEN at hnick; omega)
  unfold friend_req_fields
  simp only [hn, hv, take_mem_write _ _ _ hsk, take_mem_write _ _ _ hek,
    List.take_of_length_le (Nat.le_of_eq hhdr), List.take_of_length_le (Nat.le_of_eq htxn),
    List.take_of_length_le (Nat.le_of_eq haddr), List.take_of_length_le (Nat.le_of_eq hmbo),
    List.take_of_length_le (Nat.le_of_eq hmbi), List.take_length]

theorem flatten_foldl_add (fields : List (List Byte)) :
    ∀ buf : Evbuffer, (fields.foldl evbuffer_add buf).flatten = buf.flatten ++ fields.flatten := by
  induction fields with
  | nil => intro buf; simp
  | cons x xs ih => intro buf; simp [ih, evbuffer_add]

theorem toyEd_no_failure : NoFailure toyEd where
  init := ⟨[], rfl⟩
  update := fun h d => ⟨h ++ d, rfl⟩
  final := fun _ => ⟨_, rfl⟩
  sign_init := fun _ => rfl

theorem digest_loop_fed_all (cs : List (List Byte)) :
    ∀ rem : Nat, cs.flatten.length ≤ rem → rem < SIZE_MOD →
      (digest_loop_fed cs rem).flatten = cs.flatten := by
  induction cs with
  | nil => intro _ _ _; rfl
  | cons c cs ih =>
    intro rem h hr
    simp only [List.flatten_cons, List.length_append] at h
    simp only [digest_loop_fed, List.flatten_cons, c_min_eq]
    rw [Nat.min_eq_left (by omega), List.take_length,
      size_sub_of_le rem c.length (by omega) hr, ih (rem - c.length) (by omega) (by omega)]

/-- When the acceptance conditions hold, `recv_handle` runs its parsing part. -/
theorem recv_handle_of_accepts {H K : Type} (E : FriendEnv H K) (sig_uninit : List Byte)
    (pmain : prot_main) (msg : prot_friend_req) (h : recv_accepts E sig_uninit pmain) :
    recv_handle E sig_uninit pmain msg =
      recv_handle_accept E
        { pmain with input := evbuffer_pullup pmain.input (friend_req_static_len E) } msg
        (evbuffer_pullup pmain.input (friend_req_static_len E))
        (declared_nick_len E pmain.input) := by
  obtain ⟨hlen, hvalid, hver⟩ := h
  rw [recv_handle_eq, if_neg (by omega), if_neg (by omega), if_neg (by simp [hvalid]),
    if_neg hver]

/-- From a state in which `current_recv_done` is not set, the acceptance
conditions hold exactly when `recv_handle` sets it. -/
theorem recv_accepts_iff_done {H K : Type} (E : FriendEnv H K) (sig_uninit : List Byte)
    (pmain : prot_main) (msg : prot_friend_req) (hd : pmain.current_recv_done = false) :
    recv_accepts E sig_uninit pmain ↔
      (recv_handle E sig_uninit pmain msg).1.current_recv_done = true := by
  constructor
  · intro h
    rw [recv_handle_of_accepts E sig_uninit pmain msg h]
    exact (recv_handle_accept_pmain E _ msg _ _).1
  · intro h
    rw [recv_handle_eq] at h
    by_cases h1 : evbuffer_get_length pmain.input < friend_req_static_len E
    · rw [if_pos h1, hd] at h; cases h
    · by_cases h2 : evbuffer_get_length pmain.input < friend_req_static_len E +
          (declared_nick_len E pmain.input).val + ED25519_SIGNATURE_LEN
      · rw [if_neg h1, if_pos h2] at h
        exact absurd (hd.symm.trans h) (by decide)
      · by_cases h3 : E.onion_address_valid (onion_field E pmain.input) = false
        · rw [if_neg h1, if_neg h2, if_pos h3] at h
          exact absurd (hd.symm.trans h) (by decide)
        · by_cases h4 : ed25519_buffer_validate E.ed
              (evbuffer_pullup pmain.input (friend_req_static_len E))
              (friend_req_static_len E + (declared_nick_len E pmain.input).val +
                ED25519_SIGNATURE_LEN)
              (E.onion_extract_key (onion_field E pmain.input)) sig_uninit = 0
          · rw [if_neg h1, if_neg h2, if_neg h3, if_pos h4] at h
            exact absurd (hd.symm.trans h) (by decide)
          · exact ⟨by omega, by simpa using h3, h4⟩

/-- The parsing part of `recv_handle` on an input that holds the whole message:
the mailbox id stored, the flag, and the input left. -/
theorem recv_handle_accept_of_length {H K : Type} (E : FriendEnv H K) (pmain : prot_main)
    (msg : prot_friend_req) (input : Evbuffer) (nick_len : Byte)
    (hlen : friend_req_static_len E + nick_len.val + ED25519_SIGNATURE_LEN ≤
      input.flatten.length) :
    ∃ c, (recv_handle_accept E pmain msg input nick_len).2.friend = some c ∧
      (mailbox_id_field E input).length = MAILBOX_ID_LEN ∧
      c.mailbox_id.take MAILBOX_ID_LEN = mailbox_id_field E input ∧
      c.has_mailbox = decide ((mailbox_id_field E input).headD 0 ≠ 0) ∧
      (recv_handle_accept E pmain msg input nick_len).1.input.flatten =
        input.flatten.drop (friend_req_static_len E + nick_len.val + ED25519_SIGNATURE_LEN) := by
  simp only [friend_req_static_len, TRANSACTION_ID_LEN, CLIENT_SIG_KEY_PUB_LEN,
    CLIENT_ENC_KEY_PUB_LEN, MAILBOX_ID_LEN, ED25519_SIGNATURE_LEN] at hlen
  generalize hl : input.flatten = l at hlen
  obtain ⟨c, hc, _, _, _, _, c5, c6, _, _, c9⟩ := recv_handle_accept_fields E pmain msg input
    nick_len
    (l.take (E.PROT_HEADER_LEN + TRANSACTION_ID_LEN))
    ((l.drop (E.PROT_HEADER_LEN + TRANSACTION_ID_LEN)).take E.ONION_ADDRESS_LEN)
    ((l.drop (E.PROT_HEADER_LEN + TRANSACTION_ID_LEN + E.ONION_ADDRESS_LEN)).take
      CLIENT_SIG_KEY_PUB_LEN)
    ((l.drop (E.PROT_HEADER_LEN + TRANSACTION_ID_LEN + E.ONION_ADDRESS_LEN +
      CLIENT_SIG_KEY_PUB_LEN)).take CLIENT_ENC_KEY_PUB_LEN)
    ((l.drop (E.PROT_HEADER_LEN + TRANSACTION_ID_LEN + E.ONION_ADDRESS_LEN +
      CLIENT_SIG_KEY_PUB_LEN + CLIENT_ENC_KEY_PUB_LEN)).take E.ONION_ADDRESS_LEN)
    ((l.drop (E.PROT_HEADER_LEN + TRANSACTION_ID_LEN + E.ONION_ADDRESS_LEN +
      CLIENT_SIG_KEY_PUB_LEN + CLIENT_ENC_KEY_PUB_LEN + E.ONION_ADDRESS_LEN)).take
      MAILBOX_ID_LEN)
    ((l.drop (E.PROT_HEADER_LEN + TRANSACTION_ID_LEN + E.ONION_ADDRESS_LEN +
      CLIENT_SIG_KEY_PUB_LEN + CLIENT_ENC_KEY_PUB_LEN + E.ONION_ADDRESS_LEN +
      MAILBOX_ID_LEN)).take 1)
    ((l.drop (E.PROT_HEADER_LEN + TRANSACTION_ID_LEN + E.ONION_ADDRESS_LEN +
      CLIENT_SIG_KEY_PUB_LEN + CLIENT_ENC_KEY_PUB_LEN + E.ONION_ADDRESS_LEN +
      MAILBOX_ID_LEN + 1)).take nick_len.val)
    ((l.drop (E.PROT_HEADER_LEN + TRANSACTION_ID_LEN + E.ONION_ADDRESS_LEN +
      CLIENT_SIG_KEY_PUB_LEN + CLIENT_ENC_KEY_PUB_LEN + E.ONION_ADDRESS_LEN +
      MAILBOX_ID_LEN + 1 + nick_len.val)).take ED25519_SIGNATURE_LEN)
    (l.drop (E.PROT_HEADER_LEN + TRANSACTION_ID_LEN + E.ONION_ADDRESS_LEN +
      CLIENT_SIG_KEY_PUB_LEN + CLIENT_ENC_KEY_PUB_LEN + E.ONION_ADDRESS_LEN +
      MAILBOX_ID_LEN + 1 + nick_len.val + ED25519_SIGNATURE_LEN))
    (by
      have split : ∀ a b : Nat, (l.drop a).take b ++ l.drop (a + b) = l.drop a := fun a b => by
        rw [← List.drop_drop]; exact List.take_append_drop b _
      rw [hl, split, split, split, split, split, split, split, split, List.take_append_drop])
    (by simp only [List.length_take, TRANSACTION_ID_LEN]; omega)
    (by simp only [List.length_take, List.length_drop, TRANSACTION_ID_LEN]; omega)
    (by simp only [List.length_take, List.length_drop, TRANSACTION_ID_LEN,
      CLIENT_SIG_KEY_PUB_LEN]; omega)
    (by simp only [List.length_take, List.length_drop, TRANSACTION_ID_LEN,
      CLIENT_SIG_KEY_PUB_LEN, CLIENT_ENC_KEY_PUB_LEN]; omega)
    (by simp only [List.length_take, List.length_drop, TRANSACTION_ID_LEN,
      CLIENT_SIG_KEY_PUB_LEN, CLIENT_ENC_KEY_PUB_LEN]; omega)
    (by simp only [List.length_take, List.length_drop, TRANSACTION_ID_LEN,
      CLIENT_SIG_KEY_PUB_LEN, CLIENT_ENC_KEY_PUB_LEN, MAILBOX_ID_LEN]; omega)
    (by simp only [List.length_take, List.length_drop, TRANSACTION_ID_LEN,
      CLIENT_SIG_KEY_PUB_LEN, CLIENT_ENC_KEY_PUB_LEN, MAILBOX_ID_LEN]; omega)
    (by simp only [List.length_take, List.length_drop, TRANSACTION_ID_LEN,
      CLIENT_SIG_KEY_PUB_LEN, CLIENT_ENC_KEY_PUB_LEN, MAILBOX_ID_LEN]; omega)
    (by simp only [List.length_take, List.length_drop, TRANSACTION_ID_LEN,
      CLIENT_SIG_KEY_PUB_LEN, CLIENT_ENC_KEY_PUB_LEN, MAILBOX_ID_LEN,
      ED25519_SIGNATURE_LEN]; omega)
  have hf : mailbox_id_field E input = (l.drop (E.PROT_HEADER_LEN + TRANSACTION_ID_LEN +
      E.ONION_ADDRESS_LEN + CLIENT_SIG_KEY_PUB_LEN + CLIENT_ENC_KEY_PUB_LEN +
      E.ONION_ADDRESS_LEN)).take MAILBOX_ID_LEN := by
    unfold mailbox_id_field; rw [hl]
  refine ⟨c, hc, ?_, ?_, ?_, ?_⟩
  · rw [hf]
    simp only [List.length_take, List.length_drop, TRANSACTION_ID_LEN,
      CLIENT_SIG_KEY_PUB_LEN, CLIENT_ENC_KEY_PUB_LEN, MAILBOX_ID_LEN]; omega
  · rw [hf]; exact c5
  · rw [hf]; exact c6
  · rw [c9]
    congr 1

/-- When the acceptance conditions fail, `recv_handle` waits or sets the fault:
the message object and both handler queues stay as they were. -/
theorem recv_handle_of_not_accepts {H K : Type} (E : FriendEnv H K) (sig_uninit : List Byte)
    (pmain : prot_main) (msg : prot_friend_req) (h : ¬ recv_accepts E sig_uninit pmain) :
    (recv_handle E sig_uninit pmain msg).2 = msg ∧
    (recv_handle E sig_uninit pmain msg).1.tran_queue = pmain.tran_queue ∧
    (recv_handle E sig_uninit pmain msg).1.recv_queue = pmain.recv_queue ∧
    (recv_handle E sig_uninit pmain msg).1.current_recv_done = pmain.current_recv_done := by
  rw [recv_handle_eq]
  by_cases h1 : evbuffer_get_length pmain.input < friend_req_static_len E
  · simp [h1]
  · by_cases h2 : evbuffer_get_length pmain.input < friend_req_static_len E +
        (declared_nick_len E pmain.input).val + ED25519_SIGNATURE_LEN
    · simp [h1, h2]
    · by_cases h3 : E.onion_address_valid (onion_field E pmain.input) = false
      · simp [h1, h2, h3, prot_main_set_error]
      · by_cases h4 : ed25519_buffer_validate E.ed
            (evbuffer_pullup pmain.input (friend_req_static_len E))
            (friend_req_static_len E + (declared_nick_len E pmain.input).val +
              ED25519_SIGNATURE_LEN)
            (E.onion_extract_key (onion_field E pmain.input)) sig_uninit = 0
        · simp [h1, h2, h3, h4, prot_main_set_error]
        · exact absurd ⟨by omega, by simpa using h3, h4⟩ h

theorem run_ack_callback_freed (cb : ack_callback) (ack_success : Bool)
    (msg : prot_friend_req) :
    (run_ack_callback cb ack_success msg).freed = msg.freed + 1 ∧
    (run_ack_callback cb ack_success msg).hrecv_cleanup_cb = msg.hrecv_cleanup_cb ∧
    (run_ack_callback cb ack_success msg).htran_cleanup_cb = msg.htran_cleanup_cb := by
  cases cb <;> cases ack_success <;> cases hf : msg.friend <;>
    simp [run_ack_callback, ack_received_cb, ack_sent_cb, prot_friend_req_free, hf]

theorem recv_handle_accept_msg {H K : Type} (E : FriendEnv H K) (pmain : prot_main)
    (msg : prot_friend_req) (input : Evbuffer) (nick_len : Byte) :
    (recv_handle_accept E pmain msg input nick_len).2.freed = msg.freed ∧
    (recv_handle_accept E pmain msg input nick_len).2.hrecv_cleanup_cb = false ∧
    (recv_handle_accept E pmain msg input nick_len).2.htran_cleanup_cb = msg.htran_cleanup_cb := by
  simp [recv_handle_accept]

theorem ptr_walk_first (c : List Byte) (cs : List (List Byte)) (p : Nat) (h : p < c.length) :
    ptr_walk (c :: cs) 0 p = (some 0, p) := by
  simp only [ptr_walk, if_neg (by omega : ¬ c.length ≤ p)]

theorem ntohl_bytes_lt (bs : List Byte) : ntohl_bytes bs < 4294967296 := by
  unfold ntohl_bytes
  match bs with
  | [] => simp
  | [a] => simp only [List.take, List.foldl]; omega
  | [a, b] => simp only [List.take, List.foldl]; omega
  | [a, b, c] => simp only [List.take, List.foldl]; omega
  | a :: b :: c :: d :: _ => simp only [List.take, List.foldl]; omega

/-! ## Signatures -/

/-- C1: with a streaming digest, 64-byte signatures and a matching key pair,
after `ed25519_buffer_sign(buff, 0, priv)` has returned 0,
`ed25519_buffer_validate` on the signed buffer, in any chunk layout and with
the new buffer length as `len`, returns 1; and the 64 bytes appended are the
same for every chunk split of the content: signing any split returns 0 and
appends that signature. -/
theorem sign_validate_roundtrip {H K : Type} (P : Ed25519Prim H K) (hd : DigestLaws P)
    (hsl : SignatureLen P) (buff buff1 : Evbuffer) (priv_key pub_key : List Byte)
    (hk : KeyPair P priv_key pub_key)
    (hsz : evbuffer_get_length buff + ED25519_SIGNATURE_LEN < EV_SSIZE_LIMIT)
    (hs : ed25519_buffer_sign P buff 0 priv_key = (0, buff1)) :
    (∀ layout sig_uninit, layout.flatten = buff1.flatten →
      ed25519_buffer_validate P layout (evbuffer_get_length buff1) pub_key sig_uninit = 1) ∧
    ∃ sig, sig.length = 64 ∧ buff1.flatten = buff.flatten ++ sig ∧
      ∀ split : Evbuffer, split.flatten = buff.flatten →
        ∃ split1, ed25519_buffer_sign P split 0 priv_key = (0, split1) ∧
          split1.flatten = split.flatten ++ sig := by
  have h64 : ED25519_SIGNATURE_LEN = 64 := rfl
  obtain ⟨h0, h1, hash, pkey, hi, hpk, hsi, hl, hf, hb⟩ := sign_success P buff buff1 0 priv_key hs
  obtain ⟨ks, kv, hks, hkv, hvi, hver⟩ := hk
  have hpkey : pkey = ks := by rw [hpk] at hks; exact Option.some.inj hks
  subst hpkey
  have hlen0 : ∀ b : Evbuffer, sign_len b 0 = evbuffer_get_length b := fun b => by simp [sign_len]
  rw [hlen0, digest_loop_peek P hd buff h0 _ (by omega)] at hl
  have htake : ∀ b : Evbuffer, b.flatten.take (evbuffer_get_length b) = b.flatten :=
    fun b => List.take_length _
  rw [htake] at hl
  have hflat : buff1.flatten = buff.flatten ++ P.DigestSign pkey hash := by
    rw [hb, flatten_evbuffer_add]
  have hlen1 : evbuffer_get_length buff1 = buff.flatten.length + ED25519_SIGNATURE_LEN := by
    unfold evbuffer_get_length
    rw [hflat, List.length_append, hsl pkey hash]
  constructor
  · intro layout su hlay
    rw [hlen1, validate_eq P hd layout buff.flatten (P.DigestSign pkey hash) su pub_key
      (by rw [hlay, hflat]) (hsl pkey hash) hsz kv h0 h1 hash hkv hi hl hf hvi]
    exact hver hash
  · refine ⟨P.DigestSign pkey hash, hsl pkey hash, hflat, ?_⟩
    intro split hsplit
    refine ⟨evbuffer_add split (P.DigestSign pkey hash), ?_, flatten_evbuffer_add _ _⟩
    have hszs : evbuffer_get_length split = evbuffer_get_length buff := by
      unfold evbuffer_get_length; rw [hsplit]
    apply sign_of_steps P split 0 priv_key h0 h1 hash pkey hi hpk hsi _ hf
    rw [hlen0, digest_loop_peek P hd split h0 _ (by omega), htake, hsplit]
    exact hl

/-- Witness of C1: the toy primitives on a buffer of two chains. -/
theorem sign_validate_roundtrip_witness :
    ed25519_buffer_sign toyEd [[1], [2, 3]] 0 [9] =
        (0, [[1], [2, 3], toy_signature [9] [6, 3, 1, 2, 3]]) ∧
    ed25519_buffer_validate toyEd [[1, 2, 3], toy_signature [9] [6, 3, 1, 2, 3]]
        (evbuffer_get_length [[1], [2, 3], toy_signature [9] [6, 3, 1, 2, 3]]) [9] [] = 1 :=
  ⟨by decide,
   (sign_validate_roundtrip toyEd toyEd_digest_laws toyEd_signature_len [[1], [2, 3]]
      [[1], [2, 3], toy_signature [9] [6, 3, 1, 2, 3]] [9] [9] (toyEd_key_pair [9])
      (by decide) (by decide)).1 [[1, 2, 3], toy_signature [9] [6, 3, 1, 2, 3]] [] (by decide)⟩

/-- C2: for every chunk layout and every `len` that is 0 or at most the buffer
length, the slices that the chunk loop of `ed25519_buffer_sign` feeds to the
digest concatenate to exactly the first `len` bytes of the content (all of it
for `len = 0`); and when the function returns 0, the digest context it
finalised was fed those slices and the buffer holds the original content
followed by the 64 bytes of the signature of that hash. -/
theorem ed25519_buffer_sign_post {H K : Type} (P : Ed25519Prim H K) (buff : Evbuffer)
    (len : Nat) (priv_key : List Byte) (hsl : SignatureLen P)
    (hlen : len ≤ evbuffer_get_length buff) (hsz : evbuffer_get_length buff < EV_SSIZE_LIMIT) :
    ed25519_sign_fed buff len =
        buff.flatten.take (if len = 0 then evbuffer_get_length buff else len) ∧
    ∀ buff1, ed25519_buffer_sign P buff len priv_key = (0, buff1) →
      ∃ h0 h1 hash pkey, P.DigestInit = some h0 ∧
        digest_feed P h0 (digest_loop_fed
          (evbuffer_peek buff (ssize_of_size (sign_len buff len))) (sign_len buff len)) = some h1 ∧
        P.DigestFinal h1 = some hash ∧
        buff1.flatten = buff.flatten ++ P.DigestSign pkey hash ∧
        (P.DigestSign pkey hash).length = 64 := by
  have hle := sign_len_le buff len hlen
  constructor
  · unfold ed25519_sign_fed
    rw [fed_peek_small buff _ (by omega)]
    rfl
  · intro buff1 hs
    obtain ⟨h0, h1, hash, pkey, hi, _, _, hl, hf, hb⟩ := sign_success P buff buff1 len priv_key hs
    refine ⟨h0, h1, hash, pkey, hi, ?_, hf, ?_, hsl pkey hash⟩
    · rw [← digest_loop_eq_feed]; exact hl
    · rw [hb, flatten_evbuffer_add]

/-- Witness of C2: a buffer of two chains, signed over its first two bytes. -/
theorem ed25519_buffer_sign_post_witness :
    (2 ≤ evbuffer_get_length [[1], [2, 3]] ∧ evbuffer_get_length [[1], [2, 3]] < EV_SSIZE_LIMIT) ∧
    ed25519_sign_fed [[1], [2, 3]] 2 = [1, 2] ∧
    ∃ buff1, ed25519_buffer_sign toyEd [[1], [2, 3]] 2 [9] = (0, buff1) ∧
      buff1.flatten.take 3 = [1, 2, 3] ∧ buff1.flatten.length = 67 := by
  have h := ed25519_buffer_sign_post toyEd [[1], [2, 3]] 2 [9] toyEd_signature_len
    (by decide) (by decide)
  refine ⟨⟨by decide, by decide⟩, ?_, ?_⟩
  · rw [h.1]; rfl
  · refine ⟨(ed25519_buffer_sign toyEd [[1], [2, 3]] 2 [9]).2, by decide, ?_⟩
    obtain ⟨h0, h1, hash, pkey, _, _, _, hb, hl⟩ :=
      h.2 (ed25519_buffer_sign toyEd [[1], [2, 3]] 2 [9]).2 (by decide)
    rw [hb]
    constructor
    · rfl
    · simp [hl]

/-- With `len = 0`, `ed25519_buffer_validate` feeds the digest the whole buffer,
the last 64 bytes included, whatever the buffer. -/
theorem validate_fed_zero (buff : Evbuffer) (hsz : evbuffer_get_length buff < EV_SSIZE_LIMIT) :
    ed25519_validate_fed buff 0 = buff.flatten := by
  have hcl : validate_content_len 0 = 18446744073709551552 := by decide
  have hss : ssize_of_size 18446744073709551552 = -64 := by decide
  unfold ed25519_validate_fed
  rw [hcl, hss]
  unfold evbuffer_peek
  rw [if_pos (by decide)]
  have hp := peek_chains_flatten buff 0 (evbuffer_get_length buff)
    (by unfold evbuffer_get_length; omega)
  rw [digest_loop_fed_all _ _ (by rw [hp]; unfold evbuffer_get_length EV_SSIZE_LIMIT at hsz; omega)
    (by decide), hp]

/-- With an explicit `len` of at least 64 and at most the buffer length,
`ed25519_buffer_validate` feeds the digest the first `len - 64` bytes. -/
theorem validate_fed_explicit (buff : Evbuffer) (len : Nat) (h64 : 64 ≤ len)
    (hsz : len < EV_SSIZE_LIMIT) :
    ed25519_validate_fed buff len = buff.flatten.take (len - 64) := by
  have hcl : validate_content_len len = len - 64 := by
    unfold validate_content_len ED25519_SIGNATURE_LEN
    exact size_sub_of_le _ _ h64 (by unfold EV_SSIZE_LIMIT at hsz; unfold SIZE_MOD; omega)
  unfold ed25519_validate_fed
  rw [hcl]
  exact fed_peek_small buff _ (by omega)

/-- C3, evaluated on the code: on a buffer of 3 content bytes followed by their
valid 64-byte signature, `ed25519_buffer_validate` with the explicit length 67
digests the 3 content bytes, takes the signature from offset 3 and returns 1;
with `len = 0` the value of `content_len` has wrapped to 2^64 - 64, the digest
is fed all 67 bytes, no signature byte is copied out of the buffer (the array
keeps its content at entry), and the function returns 0. -/
theorem validate_whole_buffer_diverges :
    ed25519_buffer_validate toyEd [[1, 2, 3], toy_signature [9] [6, 3, 1, 2, 3]] 67 [9]
        (List.replicate 64 0) = 1 ∧
    ed25519_validate_fed [[1, 2, 3], toy_signature [9] [6, 3, 1, 2, 3]] 67 = [1, 2, 3] ∧
    validate_sig [[1, 2, 3], toy_signature [9] [6, 3, 1, 2, 3]] 67 (List.replicate 64 0) =
        toy_signature [9] [6, 3, 1, 2, 3] ∧
    validate_content_len 0 = 18446744073709551552 ∧
    ed25519_validate_fed [[1, 2, 3], toy_signature [9] [6, 3, 1, 2, 3]] 0 =
        [1, 2, 3] ++ toy_signature [9] [6, 3, 1, 2, 3] ∧
    validate_sig [[1, 2, 3], toy_signature [9] [6, 3, 1, 2, 3]] 0 (List.replicate 64 0) =
        List.replicate 64 0 ∧
    ed25519_buffer_validate toyEd [[1, 2, 3], toy_signature [9] [6, 3, 1, 2, 3]] 0 [9]
        (List.replicate 64 0) = 0 := by
  refine ⟨?_, ?_, ?_, ?_, ?_, ?_, ?_⟩ <;> decide

/-! ## Hybrid encryption -/

/-- C4, evaluated on the code.  The envelope that `rsa_buffer_encrypt` appends
to an empty buffer for the one-byte plaintext 65 is decrypted by
`rsa_buffer_decrypt` to the plaintext with return value 1 when the
uninitialised `is_err` happens to hold 0; when it holds 1 the same call
returns 0 although every step succeeded.  With the same envelope bytes laid
out in two chains that split the ciphertext after its first 8 bytes, the
second extent is cut at the declared length 16 instead of the 8 bytes that
remain, 8 bytes of the wrapped key reach the cipher, and the plaintext
buffer does not hold the plaintext. -/
theorem rsa_roundtrip_diverges :
    (rsa_buffer_encrypt toyRsa [[65]] [1, 2] []).1 = 1 ∧
    (rsa_buffer_decrypt toyRsa 0 (rsa_buffer_encrypt toyRsa [[65]] [1, 2] []).2 [1, 2] []).ret
      = 1 ∧
    (rsa_buffer_decrypt toyRsa 0 (rsa_buffer_encrypt toyRsa [[65]] [1, 2] []).2 [1, 2]
      []).plain.flatten = [65] ∧
    (rsa_buffer_decrypt toyRsa 1 (rsa_buffer_encrypt toyRsa [[65]] [1, 2] []).2 [1, 2] []).ret
      = 0 ∧
    (rsa_buffer_decrypt toyRsa 1 (rsa_buffer_encrypt toyRsa [[65]] [1, 2] []).2 [1, 2]
      []).plain.flatten = [65] ∧
    (open_loop_fed 16 (decrypt_extents
      [(rsa_buffer_encrypt toyRsa [[65]] [1, 2] []).2.flatten.take 12,
       (rsa_buffer_encrypt toyRsa [[65]] [1, 2] []).2.flatten.drop 12])).flatten =
      ((rsa_buffer_encrypt toyRsa [[65]] [1, 2] []).2.flatten.drop 4).take 24 ∧
    (rsa_buffer_decrypt toyRsa 0
      [(rsa_buffer_encrypt toyRsa [[65]] [1, 2] []).2.flatten.take 12,
       (rsa_buffer_encrypt toyRsa [[65]] [1, 2] []).2.flatten.drop 12] [1, 2]
      []).plain.flatten ≠ [65] := by
  refine ⟨?_, ?_, ?_, ?_, ?_, ?_, ?_⟩ <;> decide

/-- C5: under the block-cipher laws, for every plaintext of length `n` with
`(n / 16 + 1) * 16 < 2^32`, in any chunk split, a successful
`rsa_buffer_encrypt` appends to `enc`, in this order, the 4-byte big-endian
encoding of `L = (n / 16 + 1) * 16`, the ciphertext, the wrapped key and the
16-byte IV of `EVP_SealInit`; the ciphertext has exactly `L` bytes, and `L` is
the least multiple of 16 strictly greater than `n`. -/
theorem rsa_buffer_encrypt_envelope {K C : Type} (P : RsaPrim K C) (hs : SealLaws P)
    (plain enc enc1 : Evbuffer) (der_pub_key : List Byte)
    (hn : (evbuffer_get_length plain / 16 + 1) * 16 < 4294967296)
    (he : rsa_buffer_encrypt P plain der_pub_key enc = (1, enc1)) :
    ∃ pkey cipctx ek iv ct,
      P.pub_key_decode der_pub_key = some pkey ∧ P.SealInit pkey = some (cipctx, ek, iv) ∧
      enc1.flatten = enc.flatten ++ be32 ((evbuffer_get_length plain / 16 + 1) * 16) ++ ct ++
        ek ++ iv ∧
      (be32 ((evbuffer_get_length plain / 16 + 1) * 16)).length = 4 ∧
      ntohl_bytes (be32 ((evbuffer_get_length plain / 16 + 1) * 16)) =
        (evbuffer_get_length plain / 16 + 1) * 16 ∧
      ct.length = (evbuffer_get_length plain / 16 + 1) * 16 ∧ iv.length = 16 ∧
      16 ∣ (evbuffer_get_length plain / 16 + 1) * 16 ∧
      evbuffer_get_length plain < (evbuffer_get_length plain / 16 + 1) * 16 ∧
      ∀ m, 16 ∣ m → evbuffer_get_length plain < m →
        (evbuffer_get_length plain / 16 + 1) * 16 ≤ m := by
  unfold rsa_buffer_encrypt at he
  cases hd : P.pub_key_decode der_pub_key with
  | none => simp [hd, c_not] at he
  | some pkey =>
    cases hi : P.SealInit pkey with
    | none => simp [hd, hi, c_not] at he
    | some r =>
      obtain ⟨cipctx, ek, iv⟩ := r
      obtain ⟨hb0, hivl⟩ := hs.init_buf pkey cipctx ek iv hi
      simp only [AES_IV_LEN] at hivl
      simp only [hd, hi] at he
      generalize hsl : seal_loop P cipctx
        (evbuffer_peek plain (ssize_of_size (evbuffer_get_length plain)))
        (evbuffer_add enc (be32 (encrypted_len_of plain))) = res at he
      obtain ⟨oc, enc2⟩ := res
      cases oc with
      | none => simp [c_not] at he
      | some cipctx1 =>
        simp only at he
        cases hf : P.SealFinal cipctx1 with
        | none => simp [hf, c_not] at he
        | some out =>
          simp only [hf, Prod.mk.injEq] at he
          obtain ⟨ct, hflat, hctl, hbl⟩ := seal_loop_length P hs _ cipctx cipctx1 _ enc2
            (by omega) hsl
          have hpeek : (evbuffer_peek plain (ssize_of_size (evbuffer_get_length plain))).flatten
              = plain.flatten := by
            rw [evbuffer_peek_small plain _ (by unfold EV_SSIZE_LIMIT; omega)]
            exact peek_chains_flatten plain 0 _ (by unfold evbuffer_get_length; omega)
          rw [hpeek, hb0] at hctl hbl
          have hol := hs.final_len cipctx1 out (by rw [hbl]; unfold AES_BLOCK_SIZE; omega) hf
          simp only [AES_BLOCK_SIZE] at hol
          have hel : encrypted_len_of plain = (evbuffer_get_length plain / 16 + 1) * 16 := by
            unfold encrypted_len_of AES_BLOCK_SIZE
            exact Nat.mod_eq_of_lt hn
          refine ⟨pkey, cipctx, ek, iv, ct ++ out, rfl, hi, ?_, rfl, ntohl_be32 _ hn, ?_, hivl,
            ⟨_, Nat.mul_comm _ _⟩, ?_, ?_⟩
          · rw [← he.2]
            simp only [evbuffer_add, evbuffer_commit_space, List.flatten_append,
              List.flatten_cons, List.flatten_nil, List.append_nil, AES_IV_LEN] at hflat ⊢
            rw [hflat, hel, List.take_of_length_le (by omega)]
            simp [List.append_assoc]
          · simp only [List.length_append, hctl, hol]
            unfold evbuffer_get_length
            omega
          · omega
          · intro m hm hlt
            obtain ⟨k, rfl⟩ := hm
            omega

/-- Witness of C5: the toy cipher on a plaintext of 19 bytes in three chains. -/
theorem rsa_buffer_encrypt_envelope_witness :
    (evbuffer_get_length [[65, 66], List.replicate 17 1, []] / 16 + 1) * 16 = 32 ∧
    ∃ ct : List Byte, ct.length = 32 ∧
      (rsa_buffer_encrypt toyRsa [[65, 66], List.replicate 17 1, []] [1, 2] []).2.flatten =
        [0, 0, 0, 32] ++ ct ++ toy_wrap [1, 2] ++ List.replicate 16 7 := by
  obtain ⟨pkey, cipctx, ek, iv, ct, hd, hi, hflat, _, _, hl, _⟩ :=
    rsa_buffer_encrypt_envelope toyRsa toyRsa_seal_laws [[65, 66], List.replicate 17 1, []] []
      (rsa_buffer_encrypt toyRsa [[65, 66], List.replicate 17 1, []] [1, 2] []).2 [1, 2]
      (by decide) (by decide)
  have hpk : pkey = [1, 2] := by
    simp only [toyRsa] at hd
    exact (Option.some.inj hd).symm
  subst hpk
  simp only [toyRsa, Option.some.injEq, Prod.mk.injEq] at hi
  obtain ⟨_, hek, hiv⟩ := hi
  refine ⟨by decide, ct, hl, ?_⟩
  rw [hflat, ← hek, ← hiv]
  rfl

/-- C6: when the buffer is shorter than 4 bytes, or shorter than
`4 + L + ekl + ivl` with `L` the big-endian value of its first 4 bytes, `ekl`
the size of the decoded key and `ivl` = 16, `rsa_buffer_decrypt` returns 0
whatever `is_err` held at entry, leaves `plain_buff` as it was, and every read
it made of `enc_buff` ends at or before the buffer length. -/
theorem rsa_buffer_decrypt_truncated {K C : Type} (P : RsaPrim K C) (is_err_uninit : Int)
    (enc_buff : Evbuffer) (der_priv_key : List Byte) (plain_buff : Evbuffer)
    (h : evbuffer_get_length enc_buff < 4 ∨
      ∀ k, P.priv_key_decode der_priv_key = some k →
        evbuffer_get_length enc_buff <
          4 + ntohl_bytes (enc_buff.flatten.take 4) + P.pkey_size k + AES_IV_LEN) :
    (rsa_buffer_decrypt P is_err_uninit enc_buff der_priv_key plain_buff).ret = 0 ∧
    (rsa_buffer_decrypt P is_err_uninit enc_buff der_priv_key plain_buff).plain = plain_buff ∧
    ∀ r ∈ (rsa_buffer_decrypt P is_err_uninit enc_buff der_priv_key plain_buff).reads,
      r.1 + r.2 ≤ evbuffer_get_length enc_buff := by
  unfold rsa_buffer_decrypt
  cases hd : P.priv_key_decode der_priv_key with
  | none => simp [c_not]
  | some k =>
    by_cases h4 : evbuffer_get_length enc_buff < 4
    · simp [h4, c_not]
    · have hl := h.resolve_left h4 k hd
      simp only [if_neg h4, evbuffer_copyout, if_pos hl]
      refine ⟨by simp [c_not], trivial, ?_⟩
      intro r hr
      simp only [List.mem_singleton] at hr
      subst hr
      simp only
      omega

/-- Witness of C6: a buffer of 3 bytes, and a buffer whose first 4 bytes declare
16 bytes of ciphertext but which holds 10 bytes after them. -/
theorem rsa_buffer_decrypt_truncated_witness :
    (rsa_buffer_decrypt toyRsa 0 [[0, 0], [0]] [1, 2] [[7]]).ret = 0 ∧
    (rsa_buffer_decrypt toyRsa 0 [[0, 0, 0, 16], List.replicate 10 5] [1, 2] [[7]]).ret = 0 ∧
    (rsa_buffer_decrypt toyRsa 0 [[0, 0, 0, 16], List.replicate 10 5] [1, 2] [[7]]).plain
      = [[7]] ∧
    (rsa_buffer_decrypt toyRsa 0 [[0, 0, 0, 16], List.replicate 10 5] [1, 2] [[7]]).reads
      = [(0, 4)] :=
  ⟨(rsa_buffer_decrypt_truncated toyRsa 0 [[0, 0], [0]] [1, 2] [[7]]
      (Or.inl (by decide))).1,
   (rsa_buffer_decrypt_truncated toyRsa 0 [[0, 0, 0, 16], List.replicate 10 5] [1, 2] [[7]]
      (Or.inr (fun _ _ => (by decide :
        evbuffer_get_length [[0, 0, 0, 16], List.replicate 10 5] <
          4 + ntohl_bytes ([[0, 0, 0, 16], List.replicate 10 5].flatten.take 4) + 8 +
            AES_IV_LEN)))).1,
   (rsa_buffer_decrypt_truncated toyRsa 0 [[0, 0, 0, 16], List.replicate 10 5] [1, 2] [[7]]
      (Or.inr (fun _ _ => (by decide :
        evbuffer_get_length [[0, 0, 0, 16], List.replicate 10 5] <
          4 + ntohl_bytes ([[0, 0, 0, 16], List.replicate 10 5].flatten.take 4) + 8 +
            AES_IV_LEN)))).2.1,
   by decide⟩

/-- When key decode, both length checks, `EVP_OpenInit` and every `EVP_OpenUpdate`
succeed, `rsa_buffer_decrypt` returns `!is_err` for the value that `is_err` held
at entry, whatever the status of `EVP_OpenFinal`. -/
theorem rsa_buffer_decrypt_ret_of_steps {K C : Type} (P : RsaPrim K C) (is_err_uninit : Int)
    (enc_buff : Evbuffer) (der_priv_key : List Byte) (plain_buff plain1 : Evbuffer)
    (k : K) (c c1 : C) (rs : List (Nat × Nat))
    (hk : P.priv_key_decode der_priv_key = some k)
    (h4 : ¬ evbuffer_get_length enc_buff < 4)
    (hl : ¬ evbuffer_get_length enc_buff <
      4 + ntohl_bytes (evbuffer_copyout enc_buff 4) + P.pkey_size k + AES_IV_LEN)
    (hi : P.OpenInit k
      (evbuffer_copyout_from enc_buff
        (evbuffer_ptr_set enc_buff (4 + ntohl_bytes (evbuffer_copyout enc_buff 4)))
        (P.pkey_size k))
      (evbuffer_copyout_from enc_buff
        (evbuffer_ptr_set enc_buff
          (4 + ntohl_bytes (evbuffer_copyout enc_buff 4) + P.pkey_size k)) AES_IV_LEN) = some c)
    (hloop : open_loop P (ntohl_bytes (evbuffer_copyout enc_buff 4)) c
      (decrypt_extents enc_buff) 4 plain_buff = (some c1, plain1, rs)) :
    (rsa_buffer_decrypt P is_err_uninit enc_buff der_priv_key plain_buff).ret =
      c_not is_err_uninit := by
  unfold rsa_buffer_decrypt
  simp only [hk, if_neg h4, if_neg hl, hi, hloop]

/-- C7, evaluated on the code.  On the envelope of the one-byte plaintext 65
whose last ciphertext byte has been altered, key decode, both length checks,
`EVP_OpenInit` and every `EVP_OpenUpdate` succeed and `EVP_OpenFinal` fails, and
`rsa_buffer_decrypt` returns 1 when `is_err` held 0 at entry: the failure of
the final step is not recorded.  On the intact envelope every step succeeds
and the function returns 0 when `is_err` held 1 at entry. -/
theorem rsa_buffer_decrypt_ret_diverges :
    open_loop toyRsa 16 ⟨3, []⟩
      (decrypt_extents [[0, 0, 0, 16], 68 :: List.replicate 14 18 ++ [3], toy_wrap [1, 2],
        List.replicate 16 7]) 4 [] =
      (some ⟨3, 68 :: List.replicate 14 18 ++ [3]⟩, [[]], [(4, 16)]) ∧
    (toyRsa.OpenFinal ⟨3, 68 :: List.replicate 14 18 ++ [3]⟩).1 = false ∧
    (rsa_buffer_decrypt toyRsa 0 [[0, 0, 0, 16], 68 :: List.replicate 14 18 ++ [3],
      toy_wrap [1, 2], List.replicate 16 7] [1, 2] []).ret = 1 ∧
    (toyRsa.OpenFinal ⟨3, 68 :: List.replicate 15 18⟩).1 = true ∧
    (rsa_buffer_decrypt toyRsa 1 [[0, 0, 0, 16], 68 :: List.replicate 15 18,
      toy_wrap [1, 2], List.replicate 16 7] [1, 2] []).ret = 0 := by
  refine ⟨?_, ?_, ?_, ?_, ?_⟩ <;> decide

/-! ## Friend request -/

/-- C8: when the input holds fewer bytes than the fixed part of the message
(`friend_req_static_len`), or fewer than the fixed part plus the nickname
length declared in its last byte plus 64, `recv_handle` leaves the input
content, the fault state, `current_recv_done`, both handler queues and the
message object as they were.  Hence, for a message `m` of the full length
that its length byte declares, every strict prefix of `m` as input gives
that; and `m` itself, when its onion address is valid and its signature
verifies, sets `current_recv_done`, sets no fault and pushes one ACK. -/
theorem recv_handle_waits {H K : Type} (E : FriendEnv H K) (sig_uninit : List Byte)
    (pmain : prot_main) (msg : prot_friend_req) :
    ((evbuffer_get_length pmain.input < friend_req_static_len E ∨
        evbuffer_get_length pmain.input < friend_req_static_len E +
          (pmain.input.flatten.getD (friend_req_static_len E - 1) 0).val +
          ED25519_SIGNATURE_LEN) →
      (recv_handle E sig_uninit pmain msg).1.input.flatten = pmain.input.flatten ∧
      (recv_handle E sig_uninit pmain msg).1.error = pmain.error ∧
      (recv_handle E sig_uninit pmain msg).1.current_recv_done = pmain.current_recv_done ∧
      (recv_handle E sig_uninit pmain msg).1.tran_queue = pmain.tran_queue ∧
      (recv_handle E sig_uninit pmain msg).1.recv_queue = pmain.recv_queue ∧
      (recv_handle E sig_uninit pmain msg).2 = msg) ∧
    ∀ m : List Byte,
      m.length = friend_req_static_len E + (m.getD (friend_req_static_len E - 1) 0).val +
        ED25519_SIGNATURE_LEN →
      (∀ k, k < m.length → pmain.input.flatten = m.take k →
        (recv_handle E sig_uninit pmain msg).1.input.flatten = pmain.input.flatten ∧
        (recv_handle E sig_uninit pmain msg).1.error = pmain.error ∧
        (recv_handle E sig_uninit pmain msg).1.current_recv_done = pmain.current_recv_done ∧
        (recv_handle E sig_uninit pmain msg).1.tran_queue = pmain.tran_queue ∧
        (recv_handle E sig_uninit pmain msg).1.recv_queue = pmain.recv_queue ∧
        (recv_handle E sig_uninit pmain msg).2 = msg) ∧
      (pmain.input.flatten = m →
        E.onion_address_valid (onion_field E pmain.input) = true →
        ed25519_buffer_validate E.ed (evbuffer_pullup pmain.input (friend_req_static_len E))
          m.length (E.onion_extract_key (onion_field E pmain.input)) sig_uninit ≠ 0 →
        (recv_handle E sig_uninit pmain msg).1.current_recv_done = true ∧
        (recv_handle E sig_uninit pmain msg).1.error = pmain.error ∧
        (recv_handle E sig_uninit pmain msg).1.tran_queue = pmain.tran_queue ++
          [⟨none, some msg.db.options.onion_private_key, .ack_sent_cb⟩]) := by
  have hwait : (evbuffer_get_length pmain.input < friend_req_static_len E ∨
        evbuffer_get_length pmain.input < friend_req_static_len E +
          (pmain.input.flatten.getD (friend_req_static_len E - 1) 0).val +
          ED25519_SIGNATURE_LEN) →
      (recv_handle E sig_uninit pmain msg).1.input.flatten = pmain.input.flatten ∧
      (recv_handle E sig_uninit pmain msg).1.error = pmain.error ∧
      (recv_handle E sig_uninit pmain msg).1.current_recv_done = pmain.current_recv_done ∧
      (recv_handle E sig_uninit pmain msg).1.tran_queue = pmain.tran_queue ∧
      (recv_handle E sig_uninit pmain msg).1.recv_queue = pmain.recv_queue ∧
      (recv_handle E sig_uninit pmain msg).2 = msg := by
    intro h
    rw [recv_handle_eq]
    by_cases h1 : evbuffer_get_length pmain.input < friend_req_static_len E
    · simp [h1]
    · have h2 := h.resolve_left h1
      unfold declared_nick_len
      simp only [if_neg h1, if_pos h2, flatten_pullup, and_self]
  have hP : 0 < friend_req_static_len E := by unfold friend_req_static_len; omega
  refine ⟨hwait, ?_⟩
  intro m hm
  constructor
  · intro k hk hin
    apply hwait
    have hlen : evbuffer_get_length pmain.input = k := by
      unfold evbuffer_get_length
      rw [hin, List.length_take]
      omega
    by_cases h1 : k < friend_req_static_len E
    · exact Or.inl (by omega)
    · right
      rw [hin, getD_take _ _ _ _ (by omega), hlen]
      omega
  · intro hin hvalid hver
    have hlen : evbuffer_get_length pmain.input = m.length := by
      unfold evbuffer_get_length; rw [hin]
    have hnl : (declared_nick_len E pmain.input).val =
        (m.getD (friend_req_static_len E - 1) 0).val := by
      unfold declared_nick_len; rw [hin]
    rw [recv_handle_eq]
    rw [if_neg (by omega), if_neg (by omega), if_neg (by simp [hvalid]),
      if_neg (by rw [hnl, ← hm]; exact hver)]
    have := recv_handle_accept_pmain E
      { pmain with input := evbuffer_pullup pmain.input (friend_req_static_len E) } msg
      (evbuffer_pullup pmain.input (friend_req_static_len E)) (declared_nick_len E pmain.input)
    exact ⟨this.1, this.2.1, this.2.2.1⟩

/-- Witness of C8: an input of 3 bytes, and an input that holds the fixed part
declaring a nickname of 255 bytes with only 100 bytes after it. -/
theorem recv_handle_waits_witness :
    (recv_handle toyEnv [] (toy_pmain [[1, 1, 9]]) (toy_msg [] none)).1.error = none ∧
    (recv_handle toyEnv [] (toy_pmain [[1, 1, 9]]) (toy_msg [] none)).1.current_recv_done
        = false ∧
    (recv_handle toyEnv []
        (toy_pmain [List.replicate 600 1, [255], List.replicate 100 7])
        (toy_msg [] none)).1.error = none ∧
    (recv_handle toyEnv []
        (toy_pmain [List.replicate 600 1, [255], List.replicate 100 7])
        (toy_msg [] none)).1.tran_queue = [] ∧
    (recv_handle toyEnv []
        (toy_pmain [List.replicate 600 1, [255], List.replicate 100 7])
        (toy_msg [] none)).1.input.flatten =
      List.replicate 600 1 ++ [255] ++ List.replicate 100 7 := by
  have h1 := (recv_handle_waits toyEnv [] (toy_pmain [[1, 1, 9]]) (toy_msg [] none)).1
    (Or.inl (by decide))
  have h2 := (recv_handle_waits toyEnv []
    (toy_pmain [List.replicate 600 1, [255], List.replicate 100 7]) (toy_msg [] none)).1
    (Or.inr (by decide))
  refine ⟨h1.2.1, h1.2.2.1, h2.2.1, h2.2.2.2.1, ?_⟩
  rw [h2.1]
  simp [toy_pmain]

/-- C9: from a state without a fault, `recv_handle` sets the fault
`PROT_ERR_INVALID_MSG` exactly when the fixed part is buffered and the declared
nickname length exceeds `CLIENT_NICK_MAX_LEN`, or the full message is buffered
and its onion-address field is not valid or `ed25519_buffer_validate`, on the
whole message and the key extracted from that field, returns 0.  Whenever it
sets the fault, the input content, the message object with its contact and
storage, both handler queues and `current_recv_done` are as before. -/
theorem recv_handle_rejects {H K : Type} (E : FriendEnv H K) (sig_uninit : List Byte)
    (pmain : prot_main) (msg : prot_friend_req) (hne : pmain.error = none) :
    ((recv_handle E sig_uninit pmain msg).1.error = some .PROT_ERR_INVALID_MSG ↔
      (friend_req_static_len E ≤ evbuffer_get_length pmain.input ∧
        CLIENT_NICK_MAX_LEN < (declared_nick_len E pmain.input).val) ∨
      (friend_req_static_len E + (declared_nick_len E pmain.input).val +
          ED25519_SIGNATURE_LEN ≤ evbuffer_get_length pmain.input ∧
        (E.onion_address_valid (onion_field E pmain.input) = false ∨
          ed25519_buffer_validate E.ed (evbuffer_pullup pmain.input (friend_req_static_len E))
            (friend_req_static_len E + (declared_nick_len E pmain.input).val +
              ED25519_SIGNATURE_LEN)
            (E.onion_extract_key (onion_field E pmain.input)) sig_uninit = 0))) ∧
    ((recv_handle E sig_uninit pmain msg).1.error = some .PROT_ERR_INVALID_MSG →
      (recv_handle E sig_uninit pmain msg).1.input.flatten = pmain.input.flatten ∧
      (recv_handle E sig_uninit pmain msg).2 = msg ∧
      (recv_handle E sig_uninit pmain msg).1.tran_queue = pmain.tran_queue ∧
      (recv_handle E sig_uninit pmain msg).1.recv_queue = pmain.recv_queue ∧
      (recv_handle E sig_uninit pmain msg).1.current_recv_done = pmain.current_recv_done) := by
  have hnick : ¬ CLIENT_NICK_MAX_LEN < (declared_nick_len E pmain.input).val := by
    unfold CLIENT_NICK_MAX_LEN; omega
  have hacc := recv_handle_accept_pmain E
    { pmain with input := evbuffer_pullup pmain.input (friend_req_static_len E) } msg
    (evbuffer_pullup pmain.input (friend_req_static_len E)) (declared_nick_len E pmain.input)
  rw [recv_handle_eq]
  by_cases h1 : evbuffer_get_length pmain.input < friend_req_static_len E
  · simp only [if_pos h1, hne]
    refine ⟨⟨fun h => by simp at h, fun h => ?_⟩, fun h => by simp at h⟩
    rcases h with ⟨_, h⟩ | ⟨h, _⟩
    · exact absurd h hnick
    · omega
  · by_cases h2 : evbuffer_get_length pmain.input < friend_req_static_len E +
        (declared_nick_len E pmain.input).val + ED25519_SIGNATURE_LEN
    · simp only [if_neg h1, if_pos h2, hne]
      refine ⟨⟨fun h => by simp at h, fun h => ?_⟩, fun h => by simp at h⟩
      rcases h with ⟨_, h⟩ | ⟨h, _⟩
      · exact absurd h hnick
      · omega
    · simp only [if_neg h1, if_neg h2]
      by_cases h3 : E.onion_address_valid (onion_field E pmain.input) = false
      · simp only [if_pos h3, prot_main_set_error, flatten_pullup, true_and, implies_true,
          and_true, true_iff]
        exact Or.inr ⟨by omega, Or.inl h3⟩
      · by_cases h4 : ed25519_buffer_validate E.ed
            (evbuffer_pullup pmain.input (friend_req_static_len E))
            (friend_req_static_len E + (declared_nick_len E pmain.input).val +
              ED25519_SIGNATURE_LEN)
            (E.onion_extract_key (onion_field E pmain.input)) sig_uninit = 0
        · simp only [if_neg h3, if_pos h4, prot_main_set_error, flatten_pullup, true_and,
            implies_true, and_true, true_iff]
          exact Or.inr ⟨by omega, Or.inr h4⟩
        · have herr := hacc.2.1.trans hne
          rw [if_neg h3, if_neg h4, herr]
          refine ⟨⟨fun h => (by cases h), fun h => ?_⟩, fun h => (by cases h)⟩
          rcases h with ⟨_, h⟩ | ⟨_, h | h⟩
          · exact absurd h hnick
          · exact absurd h h3
          · exact absurd h h4

/-- Witness of C9: a message of full length whose onion-address field starts
with 0, which the toy environment does not accept as an address. -/
theorem recv_handle_rejects_witness :
    (toy_pmain [List.replicate 665 0]).error = none ∧
    (recv_handle toyEnv [] (toy_pmain [List.replicate 665 0]) (toy_msg [] none)).1.error =
      some .PROT_ERR_INVALID_MSG ∧
    (recv_handle toyEnv [] (toy_pmain [List.replicate 665 0]) (toy_msg [] none)).2 =
      toy_msg [] none ∧
    (recv_handle toyEnv [] (toy_pmain [List.replicate 665 0]) (toy_msg [] none)).1.tran_queue
      = [] := by
  have h := recv_handle_rejects toyEnv [] (toy_pmain [List.replicate 665 0]) (toy_msg [] none) rfl
  have he := h.1.mpr (Or.inr ⟨by decide, Or.inl (by decide)⟩)
  exact ⟨rfl, he, (h.2 he).2.1, (h.2 he).2.2.1⟩

/-- C10: with a streaming digest that does not fail, 64-byte signatures, a
valid local onion address whose extracted key matches the onion private
key, and fields of the wire widths (nickname of at most 255 bytes),
`tran_setup` on a message object with an empty buffer returns a buffer that
`recv_handle`, given its content as input in any chunk layout, accepts: the
contact of the receiver holds the onion address, both public keys, the
mailbox address and id, the nickname length and the nickname of the sender;
exactly one ACK is pushed, `current_recv_done` is set, no fault is set and
the input is consumed. -/
theorem friend_req_roundtrip {H K : Type} (E : FriendEnv H K) (hd : DigestLaws E.ed)
    (hsl : SignatureLen E.ed) (hnf : NoFailure E.ed) (g : generated_keys) (spmain : prot_main)
    (smsg : prot_friend_req) (f : db_contact) (rmsg : prot_friend_req)
    (sig_uninit : List Byte)
    (hfriend : smsg.friend = some f) (hbuf : smsg.htran_buffer = [])
    (hhdr : E.prot_header.length = E.PROT_HEADER_LEN)
    (htxn : spmain.transaction_id.length = TRANSACTION_ID_LEN)
    (haddr : smsg.db.options.onion_address.length = E.ONION_ADDRESS_LEN)
    (hsk : g.sig_pub.length = CLIENT_SIG_KEY_PUB_LEN)
    (hek : g.enc_pub.length = CLIENT_ENC_KEY_PUB_LEN)
    (hmbo : smsg.db.options.mailbox_onion_address.length = E.ONION_ADDRESS_LEN)
    (hmbi : smsg.db.options.mailbox_id.length = MAILBOX_ID_LEN)
    (hnick : smsg.db.options.nickname.length ≤ CLIENT_NICK_MAX_LEN)
    (hvalid : E.onion_address_valid smsg.db.options.onion_address = true)
    (hkp : KeyPair E.ed smsg.db.options.onion_private_key
      (E.onion_extract_key smsg.db.options.onion_address))
    (hsz : friend_req_static_len E + CLIENT_NICK_MAX_LEN + ED25519_SIGNATURE_LEN <
      EV_SSIZE_LIMIT) :
    ∃ smsg1, tran_setup E g spmain smsg = some smsg1 ∧
      ∀ rpmain : prot_main, rpmain.input.flatten = smsg1.htran_buffer.flatten →
        ∃ c, (recv_handle E sig_uninit rpmain rmsg).2.friend = some c ∧
          c.onion_address.take E.ONION_ADDRESS_LEN = smsg.db.options.onion_address ∧
          c.remote_sig_key_pub.take CLIENT_SIG_KEY_PUB_LEN = g.sig_pub ∧
          c.remote_enc_key_pub.take CLIENT_ENC_KEY_PUB_LEN = g.enc_pub ∧
          c.mailbox_onion.take E.ONION_ADDRESS_LEN = smsg.db.options.mailbox_onion_address ∧
          c.mailbox_id.take MAILBOX_ID_LEN = smsg.db.options.mailbox_id ∧
          c.nickname_len = smsg.db.options.nickname.length ∧
          c.nickname.take c.nickname_len = smsg.db.options.nickname ∧
          (recv_handle E sig_uninit rpmain rmsg).1.tran_queue = rpmain.tran_queue ++
            [⟨none, some rmsg.db.options.onion_private_key, .ack_sent_cb⟩] ∧
          (recv_handle E sig_uninit rpmain rmsg).1.current_recv_done = true ∧
          (recv_handle E sig_uninit rpmain rmsg).1.error = rpmain.error ∧
          (recv_handle E sig_uninit rpmain rmsg).1.input.flatten = [] := by
  have h64 : ED25519_SIGNATURE_LEN = 64 := rfl
  have h255 : CLIENT_NICK_MAX_LEN = 255 := rfl
  have hnv := byte_ofNat_val smsg.db.options.nickname.length (by omega)
  -- the unsigned message
  have hfields := friend_req_fields_eq E g spmain smsg.db.options f hhdr htxn haddr hsk hek hmbo
    hmbi hnick
  obtain ⟨h0, hi⟩ := hnf.init
  obtain ⟨ks, kv, hks, hkv, hvi, hver⟩ := hkp
  generalize hM : E.prot_header ++ (spmain.transaction_id ++ (smsg.db.options.onion_address ++
    (g.sig_pub ++ (g.enc_pub ++ (smsg.db.options.mailbox_onion_address ++
    (smsg.db.options.mailbox_id ++ ([(Fin.ofNat smsg.db.options.nickname.length : Byte)] ++
    smsg.db.options.nickname))))))) = M
  have hMlen : M.length = friend_req_static_len E + smsg.db.options.nickname.length := by
    rw [← hM]
    simp only [List.length_append, List.length_singleton, friend_req_static_len, hhdr, htxn,
      haddr, hsk, hek, hmbo, hmbi]
    omega
  obtain ⟨h1, hu⟩ := hnf.update h0 M
  obtain ⟨hash, hf⟩ := hnf.final h1
  -- the signed buffer
  have hflat : ∀ fields : List (List Byte), fields.flatten = M →
      (ed25519_buffer_sign E.ed (fields.foldl evbuffer_add []) 0
        smsg.db.options.onion_private_key).2.flatten = M ++ E.ed.DigestSign ks hash := by
    intro fields hfl
    have hb : (fields.foldl evbuffer_add []).flatten = M := by
      rw [flatten_foldl_add, hfl]; rfl
    rw [sign_of_steps E.ed _ 0 _ h0 h1 hash ks hi hks (hnf.sign_init ks) _ hf,
      flatten_evbuffer_add, hb]
    have hl0 : sign_len (fields.foldl evbuffer_add []) 0 = M.length := by
      simp [sign_len, evbuffer_get_length, hb]
    rw [hl0, digest_loop_peek E.ed hd _ h0 _ (by omega), hb, List.take_length]
    exact hu
  unfold tran_setup
  rw [hfriend]
  refine ⟨_, rfl, ?_⟩
  intro rpmain hin
  simp only [hbuf, hfields] at hin
  rw [hflat _ (by rw [← hM]; simp)] at hin
  -- the receiver
  have hlen : evbuffer_get_length rpmain.input =
      friend_req_static_len E + smsg.db.options.nickname.length + ED25519_SIGNATURE_LEN := by
    unfold evbuffer_get_length
    rw [hin, List.length_append, hsl ks hash, hMlen]
  have hP : 0 < friend_req_static_len E := by unfold friend_req_static_len; omega
  have hnl : declared_nick_len E rpmain.input =
      (Fin.ofNat smsg.db.options.nickname.length : Byte) := by
    unfold declared_nick_len
    rw [hin, ← hM]
    simp only [List.getD_eq_getElem?_getD, ← List.append_assoc]
    rw [List.getElem?_append_left (by
      simp only [List.length_append, List.length_singleton, friend_req_static_len, hhdr, htxn,
        haddr, hsk, hek, hmbo, hmbi]; omega)]
    rw [List.getElem?_append_left (by
      simp only [List.length_append, List.length_singleton, friend_req_static_len, hhdr, htxn,
        haddr, hsk, hek, hmbo, hmbi]; omega)]
    rw [List.getElem?_append_right (by
      simp only [List.length_append, friend_req_static_len, hhdr, htxn,
        haddr, hsk, hek, hmbo, hmbi]; omega)]
    have : friend_req_static_len E - 1 - (E.prot_header ++ spmain.transaction_id ++
        smsg.db.options.onion_address ++ g.sig_pub ++ g.enc_pub ++
        smsg.db.options.mailbox_onion_address ++ smsg.db.options.mailbox_id).length = 0 := by
      simp only [List.length_append, friend_req_static_len, hhdr, htxn,
        haddr, hsk, hek, hmbo, hmbi]; omega
    rw [this]
    rfl
  have hof : onion_field E rpmain.input = smsg.db.options.onion_address := by
    unfold onion_field
    rw [hin, ← hM]
    have : E.prot_header ++ (spmain.transaction_id ++ (smsg.db.options.onion_address ++
        (g.sig_pub ++ (g.enc_pub ++ (smsg.db.options.mailbox_onion_address ++
        (smsg.db.options.mailbox_id ++ ([(Fin.ofNat smsg.db.options.nickname.length : Byte)] ++
        smsg.db.options.nickname))))))) ++ E.ed.DigestSign ks hash =
        (E.prot_header ++ spmain.transaction_id) ++ (smsg.db.options.onion_address ++
        (g.sig_pub ++ (g.enc_pub ++ (smsg.db.options.mailbox_onion_address ++
        (smsg.db.options.mailbox_id ++ ([(Fin.ofNat smsg.db.options.nickname.length : Byte)] ++
        smsg.db.options.nickname ++ E.ed.DigestSign ks hash)))))) := by
      simp only [List.append_assoc]
    rw [this, List.drop_left' (by rw [List.length_append, hhdr, htxn]),
      List.take_left' haddr]
  have hval : ed25519_buffer_validate E.ed
      (evbuffer_pullup rpmain.input (friend_req_static_len E))
      (friend_req_static_len E + (declared_nick_len E rpmain.input).val + ED25519_SIGNATURE_LEN)
      (E.onion_extract_key (onion_field E rpmain.input)) sig_uninit = 1 := by
    rw [hnl, hnv, hof, ← hMlen]
    rw [validate_eq E.ed hd _ M (E.ed.DigestSign ks hash) sig_uninit _
      (by rw [flatten_pullup, hin]) (hsl ks hash) (by omega) kv h0 h1 hash hkv hi hu hf hvi]
    exact hver hash
  rw [recv_handle_eq, if_neg (by omega), if_neg (by rw [hnl, hnv]; omega),
    if_neg (by rw [hof, hvalid]; simp), if_neg (by rw [hval]; decide)]
  have hacc := recv_handle_accept_pmain E
    { rpmain with input := evbuffer_pullup rpmain.input (friend_req_static_len E) } rmsg
    (evbuffer_pullup rpmain.input (friend_req_static_len E)) (declared_nick_len E rpmain.input)
  obtain ⟨c, hc, c1, c2, c3, c4, c5, _, c7, c8, c9⟩ := recv_handle_accept_fields E
    { rpmain with input := evbuffer_pullup rpmain.input (friend_req_static_len E) } rmsg
    (evbuffer_pullup rpmain.input (friend_req_static_len E)) (declared_nick_len E rpmain.input)
    (E.prot_header ++ spmain.transaction_id) smsg.db.options.onion_address g.sig_pub g.enc_pub
    smsg.db.options.mailbox_onion_address smsg.db.options.mailbox_id
    [(Fin.ofNat smsg.db.options.nickname.length : Byte)] smsg.db.options.nickname
    (E.ed.DigestSign ks hash) []
    (by rw [flatten_pullup, hin, ← hM]; simp only [List.append_assoc, List.append_nil])
    (by rw [List.length_append, hhdr, htxn]) haddr hsk hek hmbo hmbi rfl
    (by rw [hnl, hnv]) (hsl ks hash)
  rw [hnl, hnv] at c7 c8
  refine ⟨c, hc, c1, c2, c3, c4, c5, c7, ?_, hacc.2.2.1, hacc.1, hacc.2.1, c9⟩
  rw [c7]; exact c8

/-- Witness of C10: the sender has the nickname Alice (65 108 105 99 101) and
the onion address 5 6 7 8. -/
theorem friend_req_roundtrip_witness :
    ∃ smsg1, tran_setup toyEnv toy_keys (toy_pmain [])
        (toy_msg [65, 108, 105, 99, 101] (some (db_contact_new 4))) = some smsg1 ∧
      ∃ c, (recv_handle toyEnv [] (toy_pmain smsg1.htran_buffer) (toy_msg [] none)).2.friend
          = some c ∧
        c.nickname_len = 5 ∧ c.nickname.take 5 = [65, 108, 105, 99, 101] ∧
        c.onion_address.take 4 = [5, 6, 7, 8] ∧
        (recv_handle toyEnv [] (toy_pmain smsg1.htran_buffer) (toy_msg [] none)).1.tran_queue =
          [⟨none, some [5, 6, 7, 8], .ack_sent_cb⟩] := by
  obtain ⟨smsg1, hs, hr⟩ := friend_req_roundtrip toyEnv toyEd_digest_laws toyEd_signature_len
    toyEd_no_failure toy_keys (toy_pmain [])
    (toy_msg [65, 108, 105, 99, 101] (some (db_contact_new 4))) (db_contact_new 4)
    (toy_msg [] none) [] rfl rfl rfl rfl rfl rfl rfl rfl rfl (by decide) rfl
    (toyEd_key_pair [5, 6, 7, 8]) (by decide)
  obtain ⟨c, hc, h1, _, _, _, _, h6, h7, h8, _⟩ := hr (toy_pmain smsg1.htran_buffer) rfl
  exact ⟨smsg1, hs, c, hc, h6, by rw [h6] at h7; exact h7, h1, h8⟩

/-! ## Mailbox flag -/

/-- C11, as amended: for every accepted inbound friend request, the contact
holds the 16 bytes of the received mailbox-id field, and `has_mailbox` is set
to true if and only if the first byte of that field is non-zero; in
particular it is set to false when the field is all-zero. -/
theorem has_mailbox_first_byte {H K : Type} (E : FriendEnv H K) (sig_uninit : List Byte)
    (pmain : prot_main) (msg : prot_friend_req) (h : recv_accepts E sig_uninit pmain) :
    ∃ c, (recv_handle E sig_uninit pmain msg).2.friend = some c ∧
      (mailbox_id_field E pmain.input).length = MAILBOX_ID_LEN ∧
      c.mailbox_id.take MAILBOX_ID_LEN = mailbox_id_field E pmain.input ∧
      (c.has_mailbox = true ↔ (mailbox_id_field E pmain.input).headD 0 ≠ 0) ∧
      ((∀ b ∈ mailbox_id_field E pmain.input, b = 0) → c.has_mailbox = false) := by
  have hfield : mailbox_id_field E (evbuffer_pullup pmain.input (friend_req_static_len E)) =
      mailbox_id_field E pmain.input := by
    unfold mailbox_id_field; rw [flatten_pullup]
  obtain ⟨c, hc, hl, hid, hm, _⟩ := recv_handle_accept_of_length E
    { pmain with input := evbuffer_pullup pmain.input (friend_req_static_len E) } msg
    (evbuffer_pullup pmain.input (friend_req_static_len E)) (declared_nick_len E pmain.input)
    (by rw [flatten_pullup]; exact h.1)
  rw [hfield] at hl hid hm
  rw [recv_handle_of_accepts E sig_uninit pmain msg h]
  refine ⟨c, hc, hl, hid, ?_, ?_⟩
  · rw [hm]; simp
  · intro hz
    rw [hm]
    cases hf : mailbox_id_field E pmain.input with
    | nil => simp
    | cons b bs =>
      have : b = 0 := hz b (by rw [hf]; exact List.mem_cons_self b bs)
      simp [this]

/-- Witness of C11 as amended: the toy request of a sender whose mailbox id
starts with 7, and the one of a sender without mailbox. -/
theorem has_mailbox_first_byte_witness :
    recv_accepts toyEnv [] (toy_pmain [toy_request (7 :: List.replicate 15 0) []]) ∧
    (recv_handle toyEnv [] (toy_pmain [toy_request (7 :: List.replicate 15 0) []])
      (toy_msg [] none)).2.friend.map (fun c => c.has_mailbox) = some true ∧
    (recv_handle toyEnv [] (toy_pmain [toy_request (List.replicate 16 0) []])
      (toy_msg [] none)).2.friend.map (fun c => c.has_mailbox) = some false := by
  have ha1 : recv_accepts toyEnv [] (toy_pmain [toy_request (7 :: List.replicate 15 0) []]) :=
    ⟨by decide, by decide, by decide⟩
  have ha2 : recv_accepts toyEnv [] (toy_pmain [toy_request (List.replicate 16 0) []]) :=
    ⟨by decide, by decide, by decide⟩
  obtain ⟨c1, hc1, _, _, hm1, _⟩ := has_mailbox_first_byte toyEnv []
    (toy_pmain [toy_request (7 :: List.replicate 15 0) []]) (toy_msg [] none) ha1
  obtain ⟨c2, hc2, _, _, _, hz2⟩ := has_mailbox_first_byte toyEnv []
    (toy_pmain [toy_request (List.replicate 16 0) []]) (toy_msg [] none) ha2
  refine ⟨ha1, ?_, ?_⟩
  · rw [hc1, Option.map_some', hm1.mpr (by decide)]
  · rw [hc2, Option.map_some', hz2 (by decide)]

/-- C11, counterexample: the toy request of a sender whose mailbox id is 0 1 0
... 0 is accepted, its mailbox-id field holds the non-zero byte 1, and
`has_mailbox` is set to false: the flag is not equivalent to the field having a
non-zero byte. -/
theorem has_mailbox_any_byte_fails :
    recv_accepts toyEnv [] (toy_pmain [toy_request (0 :: 1 :: List.replicate 14 0) []]) ∧
    mailbox_id_field toyEnv [toy_request (0 :: 1 :: List.replicate 14 0) []] =
      0 :: 1 :: List.replicate 14 0 ∧
    (recv_handle toyEnv [] (toy_pmain [toy_request (0 :: 1 :: List.replicate 14 0) []])
      (toy_msg [] none)).2.friend.map (fun c => c.has_mailbox) = some false ∧
    ¬ ((recv_handle toyEnv [] (toy_pmain [toy_request (0 :: 1 :: List.replicate 14 0) []])
        (toy_msg [] none)).2.friend.map (fun c => c.has_mailbox) = some true ↔
      ∃ b ∈ mailbox_id_field toyEnv [toy_request (0 :: 1 :: List.replicate 14 0) []],
        b ≠ 0) := by
  refine ⟨⟨by decide, by decide, by decide⟩, by decide, by decide, by decide⟩

/-! ## Cleanup of the message object -/

/-- C12: for a message object whose handler still has its `cleanup_cb`, and for
both outcomes of an ACK.  Receive side: `recv_handle` itself frees nothing;
when it accepts, it clears `cleanup_cb` and pushes exactly one ACK, with
callback `ack_sent_cb`; when it waits or sets the fault, `cleanup_cb` stays set
and no handler is pushed; and after the engine has discarded the handler and
the ACKs pushed have completed, `prot_friend_req_free` has run exactly once.
Send side: `tran_done` frees nothing, clears `cleanup_cb` and pushes exactly one
ACK, with callback `ack_received_cb`, and after discard and completion
`prot_friend_req_free` has run exactly once.  Each completion callback frees
the message once, whether the ACK succeeded or failed. -/
theorem friend_req_freed_once {H K : Type} (E : FriendEnv H K) (sig_uninit : List Byte)
    (pmain : prot_main) (msg : prot_friend_req) (ack_success : Bool) :
    (msg.hrecv_cleanup_cb = true →
      (recv_handle E sig_uninit pmain msg).2.freed = msg.freed ∧
      (recv_accepts E sig_uninit pmain →
        (recv_handle E sig_uninit pmain msg).2.hrecv_cleanup_cb = false ∧
        (recv_handle E sig_uninit pmain msg).1.tran_queue = pmain.tran_queue ++
          [⟨none, some msg.db.options.onion_private_key, .ack_sent_cb⟩] ∧
        (recv_handle E sig_uninit pmain msg).1.recv_queue = pmain.recv_queue) ∧
      (¬ recv_accepts E sig_uninit pmain →
        (recv_handle E sig_uninit pmain msg).2 = msg ∧
        (recv_handle E sig_uninit pmain msg).2.hrecv_cleanup_cb = true ∧
        (recv_handle E sig_uninit pmain msg).1.tran_queue = pmain.tran_queue ∧
        (recv_handle E sig_uninit pmain msg).1.recv_queue = pmain.recv_queue) ∧
      (recv_lifecycle E sig_uninit pmain msg ack_success).freed = msg.freed + 1) ∧
    (msg.htran_cleanup_cb = true → ∀ f, msg.friend = some f →
      ∃ r m, tran_done pmain msg = some r ∧ r.2.freed = msg.freed ∧
        r.2.htran_cleanup_cb = false ∧
        r.1.recv_queue = pmain.recv_queue ++ [⟨some f.onion_pub_key, none, .ack_received_cb⟩] ∧
        r.1.tran_queue = pmain.tran_queue ∧
        tran_lifecycle pmain msg ack_success = some m ∧ m.freed = msg.freed + 1) ∧
    (∀ cb, (run_ack_callback cb ack_success msg).freed = msg.freed + 1) := by
  refine ⟨?_, ?_, fun cb => (run_ack_callback_freed cb ack_success msg).1⟩
  · intro hset
    by_cases ha : recv_accepts E sig_uninit pmain
    · have heq := recv_handle_of_accepts E sig_uninit pmain msg ha
      have hp := recv_handle_accept_pmain E
        { pmain with input := evbuffer_pullup pmain.input (friend_req_static_len E) } msg
        (evbuffer_pullup pmain.input (friend_req_static_len E))
        (declared_nick_len E pmain.input)
      have hm := recv_handle_accept_msg E
        { pmain with input := evbuffer_pullup pmain.input (friend_req_static_len E) } msg
        (evbuffer_pullup pmain.input (friend_req_static_len E))
        (declared_nick_len E pmain.input)
      refine ⟨by rw [heq]; exact hm.1, fun _ => ?_, fun hn => absurd ha hn, ?_⟩
      · rw [heq]; exact ⟨hm.2.1, hp.2.2.1, hp.2.2.2.1⟩
      · unfold recv_lifecycle
        simp only [heq, hp.2.2.1, List.drop_left, complete_acks, List.foldl_cons,
          List.foldl_nil, engine_discard_recv, hm.2.1]
        rw [(run_ack_callback_freed _ _ _).1]
        simp [hm.1]
    · have hn := recv_handle_of_not_accepts E sig_uninit pmain msg ha
      refine ⟨by rw [hn.1], fun h => absurd h ha, fun _ => ?_, ?_⟩
      · rw [hn.1]; exact ⟨rfl, hset, hn.2.1, hn.2.2.1⟩
      · unfold recv_lifecycle
        simp only [hn.1, hn.2.1, List.drop_length, complete_acks, List.foldl_nil,
          engine_discard_recv, hset, if_true, recv_cleanup, prot_friend_req_free]
  · intro hset f hf
    have htd : tran_done pmain msg = some
        (prot_main_push_recv pmain ⟨some f.onion_pub_key, none, .ack_received_cb⟩,
          { msg with htran_cleanup_cb := false }) := by
      simp [tran_done, hf]
    refine ⟨_, run_ack_callback .ack_received_cb ack_success
      { msg with htran_cleanup_cb := false }, htd, rfl, rfl, rfl, rfl, ?_,
      (run_ack_callback_freed _ _ _).1⟩
    unfold tran_lifecycle
    rw [htd]
    simp [prot_main_push_recv, complete_acks, engine_discard_tran]

/-- Witness of C12: an accepted toy request whose ACK succeeds, an input of 3
bytes after which the handler is discarded, and a sent request whose ACK
fails. -/
theorem friend_req_freed_once_witness :
    (toy_msg [] none).hrecv_cleanup_cb = true ∧
    (recv_lifecycle toyEnv [] (toy_pmain [toy_request (List.replicate 16 0) [65]])
      (toy_msg [] none) true).freed = 1 ∧
    (recv_lifecycle toyEnv [] (toy_pmain [[1, 1, 9]]) (toy_msg [] none) false).freed = 1 ∧
    (tran_lifecycle (toy_pmain []) (toy_msg [] (some (db_contact_new 4))) false).map
      (fun m => m.freed) = some 1 := by
  have h1 := (friend_req_freed_once toyEnv []
    (toy_pmain [toy_request (List.replicate 16 0) [65]]) (toy_msg [] none) true).1 rfl
  have h2 := (friend_req_freed_once toyEnv [] (toy_pmain [[1, 1, 9]]) (toy_msg [] none)
    false).1 rfl
  obtain ⟨r, m, _, _, _, _, _, hl, hm⟩ := (friend_req_freed_once toyEnv [] (toy_pmain [])
    (toy_msg [] (some (db_contact_new 4))) false).2.1 rfl (db_contact_new 4) rfl
  refine ⟨rfl, h1.2.2.2, h2.2.2.2, ?_⟩
  rw [hl, Option.map_some', hm]
  rfl

/-! ## Chunked decryption -/

/-- For an envelope held in one chain, the loop of `rsa_buffer_decrypt` passes to
the cipher exactly the `L` bytes after the length field. -/
theorem open_loop_fed_single_chunk (e : List Byte) (hl : 4 < e.length)
    (hlen : 4 + ntohl_bytes (e.take 4) ≤ e.length) :
    (open_loop_fed (ntohl_bytes (e.take 4)) (decrypt_extents [e])).flatten =
      (e.drop 4).take (ntohl_bytes (e.take 4)) := by
  have hc : evbuffer_copyout [e] 4 = e.take 4 := by simp [evbuffer_copyout]
  unfold decrypt_extents evbuffer_ptr_set evbuffer_peek_from
  rw [ptr_walk_first e [] 4 hl, hc]
  simp only [List.drop_zero, peek_chains, open_loop_fed, List.flatten_cons, List.flatten_nil,
    List.append_nil, List.length_drop, open_chunk_len]
  rw [if_neg (by omega)]

/-- For an envelope split into two chains inside its ciphertext, at offset `k`
with `4 < k < 4 + L`, the loop of `rsa_buffer_decrypt` passes to the cipher the
`L` ciphertext bytes and the `k - 4` bytes that follow them. -/
theorem open_loop_fed_two_chunks (e : List Byte) (k : Nat) (hk4 : 4 < k)
    (hkL : k < 4 + ntohl_bytes (e.take 4)) (hlen : k + ntohl_bytes (e.take 4) ≤ e.length) :
    (open_loop_fed (ntohl_bytes (e.take 4)) (decrypt_extents [e.take k, e.drop k])).flatten =
      (e.drop 4).take (ntohl_bytes (e.take 4) + (k - 4)) := by
  have hL := ntohl_bytes_lt (e.take 4)
  have hc : evbuffer_copyout [e.take k, e.drop k] 4 = e.take 4 := by
    simp only [evbuffer_copyout, List.flatten_cons, List.flatten_nil, List.append_nil,
      List.take_append_drop]
  have hs : ssize_of_size (ntohl_bytes (e.take 4)) = (ntohl_bytes (e.take 4) : Int) :=
    ssize_of_size_small _ (by unfold EV_SSIZE_LIMIT; omega)
  have hkl : (e.take k).length = k := by rw [List.length_take]; omega
  unfold decrypt_extents evbuffer_ptr_set evbuffer_peek_from
  rw [ptr_walk_first _ _ 4 (by omega), hc, hs]
  simp only [List.drop_zero, peek_chains, hkl, Int.toNat_ofNat,
    if_neg (by omega : ¬ ((ntohl_bytes (e.take 4) : Int) < 0)),
    if_neg (by omega : ¬ ntohl_bytes (e.take 4) ≤ k - 4), open_loop_fed, List.flatten_cons,
    List.flatten_nil, List.append_nil, List.length_drop, open_chunk_len,
    if_pos (by omega : k - 4 < ntohl_bytes (e.take 4)),
    if_neg (by omega : ¬ e.length - k < ntohl_bytes (e.take 4))]
  rw [List.take_of_length_le (by rw [List.length_drop, hkl]), List.drop_take,
    Nat.add_comm (ntohl_bytes (e.take 4)) (k - 4), List.take_add, List.drop_drop]
  congr 3
  omega

/-- C13, evaluated on the code.  The toy envelope of the one-byte plaintext 65
is well formed: 4 bytes declaring `L` = 16, 16 bytes of ciphertext, 8 of wrapped
key, 16 of IV.  Held in one chain, the loop of `rsa_buffer_decrypt` passes the
16 ciphertext bytes to the cipher and the output is the plaintext.  Split
into chains of 12 and 32 bytes, the second extent is cut at the declared 16
bytes, not at the 8 that remain: the cipher is passed 24 bytes, the
ciphertext and the first 8 bytes of the wrapped key, and the output is not
the output of the one-chain layout. -/
theorem rsa_decrypt_chunks_diverge :
    toy_envelope = [0, 0, 0, 16] ++ (68 :: List.replicate 15 18) ++ toy_wrap [1, 2] ++
      List.replicate 16 7 ∧
    ntohl_bytes (toy_envelope.take 4) = 16 ∧
    (open_loop_fed 16 (decrypt_extents [toy_envelope])).flatten =
      (toy_envelope.drop 4).take 16 ∧
    (rsa_buffer_decrypt toyRsa 0 [toy_envelope] [1, 2] []).plain.flatten = [65] ∧
    decrypt_extents [toy_envelope.take 12, toy_envelope.drop 12] =
      [(toy_envelope.drop 4).take 8, toy_envelope.drop 12] ∧
    (open_loop_fed 16 (decrypt_extents [toy_envelope.take 12, toy_envelope.drop 12])).flatten =
      (toy_envelope.drop 4).take 16 ++ (toy_wrap [1, 2]).take 8 ∧
    (open_loop_fed 16 (decrypt_extents [toy_envelope.take 12, toy_envelope.drop 12])).flatten ≠
      (toy_envelope.drop 4).take 16 ∧
    (rsa_buffer_decrypt toyRsa 0 [toy_envelope.take 12, toy_envelope.drop 12] [1, 2]
      []).plain.flatten ≠
      (rsa_buffer_decrypt toyRsa 0 [toy_envelope] [1, 2] []).plain.flatten := by
  refine ⟨?_, ?_, ?_, ?_, ?_, ?_, ?_, ?_⟩ <;> decide

/-! ## Consumption of the input -/

/-- C14: whenever `recv_handle` accepts a friend request, it sets
`current_recv_done` and the input afterwards holds exactly the bytes that
followed the first `P + nick_len + 64` bytes, unchanged and in order; those
first bytes, the whole message, are what was removed. -/
theorem recv_handle_consumes {H K : Type} (E : FriendEnv H K) (sig_uninit : List Byte)
    (pmain : prot_main) (msg : prot_friend_req) (h : recv_accepts E sig_uninit pmain) :
    (recv_handle E sig_uninit pmain msg).1.current_recv_done = true ∧
    (recv_handle E sig_uninit pmain msg).1.input.flatten =
      pmain.input.flatten.drop (friend_req_static_len E +
        (declared_nick_len E pmain.input).val + ED25519_SIGNATURE_LEN) ∧
    pmain.input.flatten =
      pmain.input.flatten.take (friend_req_static_len E +
        (declared_nick_len E pmain.input).val + ED25519_SIGNATURE_LEN) ++
      (recv_handle E sig_uninit pmain msg).1.input.flatten ∧
    evbuffer_get_length (recv_handle E sig_uninit pmain msg).1.input +
      (friend_req_static_len E + (declared_nick_len E pmain.input).val +
        ED25519_SIGNATURE_LEN) = evbuffer_get_length pmain.input := by
  obtain ⟨c, _, _, _, _, hin⟩ := recv_handle_accept_of_length E
    { pmain with input := evbuffer_pullup pmain.input (friend_req_static_len E) } msg
    (evbuffer_pullup pmain.input (friend_req_static_len E)) (declared_nick_len E pmain.input)
    (by rw [flatten_pullup]; exact h.1)
  rw [flatten_pullup] at hin
  have hlen := h.1
  rw [recv_handle_of_accepts E sig_uninit pmain msg h]
  refine ⟨(recv_handle_accept_pmain E _ msg _ _).1, hin, ?_, ?_⟩
  · rw [hin, List.take_append_drop]
  · unfold evbuffer_get_length at hlen ⊢
    rw [hin, List.length_drop]
    omega

/-- Witness of C14: the toy request followed by the bytes 42 43, in two chains. -/
theorem recv_handle_consumes_witness :
    recv_accepts toyEnv [] (toy_pmain [toy_request (List.replicate 16 0) [65], [42, 43]]) ∧
    (recv_handle toyEnv [] (toy_pmain [toy_request (List.replicate 16 0) [65], [42, 43]])
      (toy_msg [] none)).1.current_recv_done = true ∧
    (recv_handle toyEnv [] (toy_pmain [toy_request (List.replicate 16 0) [65], [42, 43]])
      (toy_msg [] none)).1.input.flatten = [42, 43] := by
  have ha : recv_accepts toyEnv [] (toy_pmain [toy_request (List.replicate 16 0) [65], [42, 43]]) :=
    ⟨by decide, by decide, by decide⟩
  have h := recv_handle_consumes toyEnv [] (toy_pmain [toy_request (List.replicate 16 0) [65], [42, 43]])
    (toy_msg [] none) ha
  refine ⟨ha, h.1, ?_⟩
  rw [h.2.1]
  decide

end DeepMessenger
